import Mathlib

/-!
# Verification of the Local IO MCP file-manager server

Shallow embedding of the two server variants of the repository:

* the isolated-workspace variant (workspace root `/workspace`, tools
  `initialize_work`, `read_file`, `write_file`, `delete_file`, `list_dir`,
  `git_status`, `git_diff`, `git_add`, `git_commit`, `git_log`,
  `git_remote_set_url_from_env`, `git_branch_delete`,
  `git_branch_create_and_push`);
* the `repoPath`-parameterised variant (`src/server.js`), of which we embed
  the `git_branch_create` handler.

Paths are POSIX strings; we model Node's `path` module (`resolve`, `join`)
by splitting on `'/'`, processing `"."`/`".."` segments left to right, and
rendering back to an absolute string.  The filesystem seen through
`fs/promises` is modelled as association lists keyed by normalized segment
lists.  Child processes (`git`) are an oracle from command line and working
directory to a stdout string or a failure message; handlers record the
command lines they pass to the oracle.
-/

/-! ## List helpers: leading sublists -/

/-- `Lead a b` says the list `a` is an initial run of the list `b`. -/
def Lead {α : Type} (a b : List α) : Prop := ∃ t, b = a ++ t

/-! ## Path model (POSIX), following Node's `path` module -/

/-- Split a character list at `'/'`, keeping (possibly empty) groups. -/
def splitCh : List Char → List (List Char)
  | [] => [[]]
  | c :: cs =>
    if c = '/' then [] :: splitCh cs
    else
      match splitCh cs with
      | [] => [[c]]
      | g :: gs => (c :: g) :: gs

/-- The non-empty `'/'`-separated segments of a path string. -/
def splitPath (s : String) : List String :=
  ((splitCh s.data).filter (fun l => l ≠ [])).map (fun l => String.mk l)

/-- One step of Node path normalization: `"."` is dropped, `".."` pops the
last accumulated segment (a no-op at the root), anything else is kept. -/
def normStep (acc : List String) (seg : String) : List String :=
  if seg = "." then acc
  else if seg = ".." then acc.dropLast
  else acc ++ [seg]

/-- Normalize a segment list of an absolute path (Node semantics: `".."`
above the root is discarded). -/
def normSegs (segs : List String) : List String := segs.foldl normStep []

/-- Characters of the rendering of an absolute path from its segments. -/
def renderSegs : List String → List Char
  | [] => []
  | s :: rest => '/' :: (s.data ++ renderSegs rest)

/-- Render an absolute path from normalized segments (`[]` renders as the
root `"/"`). -/
def renderAbs (segs : List String) : String :=
  if segs = [] then "/" else String.mk (renderSegs segs)

/-- Model of JavaScript `String.prototype.startsWith`. -/
def jsStartsWith (s pre : String) : Bool :=
  decide (s.data.take pre.data.length = pre.data)

/-- A directory-entry name as it can occur on a real POSIX filesystem:
non-empty, not `"."` or `".."`, and free of the separator. -/
def cleanSeg (s : String) : Prop :=
  s ≠ "" ∧ s ≠ "." ∧ s ≠ ".." ∧ '/' ∉ s.data

instance : DecidablePred cleanSeg := fun s => by
  unfold cleanSeg; infer_instance

/-- A rendered segment: non-empty and free of the separator. -/
def goodSeg (s : String) : Prop := s ≠ "" ∧ '/' ∉ s.data

/-- Model of Node `path.resolve` applied to one absolute path. -/
def pathResolveAbs (p : String) : String := renderAbs (normSegs (splitPath p))

/-- Model of Node `path.resolve(dir, name)` for an absolute `dir`: an
absolute `name` wins, otherwise `name` is resolved below `dir`. -/
def pathResolveIn (dir name : String) : String :=
  if jsStartsWith name "/" then renderAbs (normSegs (splitPath name))
  else renderAbs (normSegs (splitPath dir ++ splitPath name))

/-- Model of Node `path.join(a, b)` for an absolute `a`: concatenate with a
separator and normalize. -/
def pathJoin (a b : String) : String :=
  renderAbs (normSegs (splitPath (a ++ "/" ++ b)))

/-- Spec-side definition, following the spec's words for constrained
resolution: "the resolver computes `root/name`, normalizes it" — the input
is always treated as relative to the root. -/
def specJoinNorm (root name : String) : String :=
  renderAbs (normSegs (splitPath root ++ splitPath name))

/-- Spec-side notion of "strict descendant": the segments of `root` are a
proper initial run of the segments of `p`. -/
def strictlyInside (root p : String) : Prop :=
  (splitPath p).take (splitPath root).length = splitPath root ∧
    splitPath root ≠ splitPath p

instance (root p : String) : Decidable (strictlyInside root p) := by
  unfold strictlyInside; infer_instance

/-! ## The isolated-workspace variant: workspace directory resolution -/

def WORKSPACE_ROOT : String := "/workspace"

def notInitializedMsg : String :=
  "Workspace not initialized. Run initialize_work first."

/-- `getWorkspaceDir` from the isolated-workspace server: throws when no
workspace is active, otherwise joins the root with the active folder name.
The process-wide mutable `workspaceFolderName` is the `Option String`. -/
def getWorkspaceDir (st : Option String) : Except String String :=
  match st with
  | none => Except.error notInitializedMsg
  | some f => Except.ok (pathJoin WORKSPACE_ROOT f)

/-- `getWorkspaceFilePath` from the isolated-workspace server: resolve
`fileName` against the workspace directory and require the result to start
with the resolved workspace directory plus the separator. -/
def getWorkspaceFilePath (st : Option String) (fileName : String) :
    Except String String :=
  match getWorkspaceDir st with
  | Except.error e => Except.error e
  | Except.ok workspaceDir =>
    let resolvedWorkspaceDir := pathResolveAbs workspaceDir
    let resolvedPath := pathResolveIn workspaceDir fileName
    if ¬ (jsStartsWith resolvedPath (resolvedWorkspaceDir ++ "/") = true) then
      Except.error "Invalid file name."
    else
      Except.ok resolvedPath


/-! ## Filesystem model

The filesystem visible through `fs/promises` is modelled as association
lists keyed by normalized segment lists (every path a handler passes to an
`fs` call is the output of `path.join` / `path.resolve`, so keying by the
split segments loses nothing).  `find?`-based lookup returns the first
binding.  Copy with a `recursive` flag from a directory entry's type is
modelled as a subtree copy: for a file source the subtree is the file
itself, which matches Node's non-recursive file copy. -/

structure FS where
  files : List (List String × String)
  dirs : List (List String)
deriving DecidableEq

/-- First-match file lookup. -/
def FS.fileContent (fs : FS) (k : List String) : Option String :=
  (fs.files.find? (fun e => e.1 == k)).map (fun e => e.2)

def FS.hasDir (fs : FS) (k : List String) : Bool := fs.dirs.contains k

def FS.existsAt (fs : FS) (k : List String) : Bool :=
  (fs.fileContent k).isSome || fs.hasDir k

/-- `isUnder k l`: the node `l` is `k` itself or lies in the subtree of `k`. -/
def isUnder (k l : List String) : Bool := l.take k.length == k

/-- Model of `fs.readFile(p, "utf-8")`. -/
def FS.readFileOp (fs : FS) (p : String) : Except String String :=
  let k := splitPath p
  if fs.hasDir k then
    Except.error "EISDIR: illegal operation on a directory, read"
  else
    match fs.fileContent k with
    | some c => Except.ok c
    | none =>
      Except.error ("ENOENT: no such file or directory, open '" ++ p ++ "'")

/-- Model of `fs.writeFile(p, c, "utf-8")`: fails on a directory target or a
missing parent directory, otherwise overwrites (creating if absent). -/
def FS.writeFileOp (fs : FS) (p c : String) : Except String FS :=
  let k := splitPath p
  if k.isEmpty || fs.hasDir k then
    Except.error ("EISDIR: illegal operation on a directory, open '" ++ p ++ "'")
  else if !k.dropLast.isEmpty && !fs.hasDir k.dropLast then
    Except.error ("ENOENT: no such file or directory, open '" ++ p ++ "'")
  else
    Except.ok { fs with files := (k, c) :: fs.files.filter (fun e => !(e.1 == k)) }

/-- Model of `fs.unlink(p)`. -/
def FS.unlinkOp (fs : FS) (p : String) : Except String FS :=
  let k := splitPath p
  if fs.hasDir k then
    Except.error ("EPERM: operation not permitted, unlink '" ++ p ++ "'")
  else if (fs.fileContent k).isSome then
    Except.ok { fs with files := fs.files.filter (fun e => !(e.1 == k)) }
  else
    Except.error ("ENOENT: no such file or directory, unlink '" ++ p ++ "'")

/-- The entry name when `l` is an immediate child of the directory `k`. -/
def childName (k l : List String) : Option String :=
  if l.take k.length = k then
    match l.drop k.length with
    | [n] => some n
    | _ => none
  else none

/-- Immediate children with their types, files first (the enumeration order
of `readdir` is platform-defined; the model fixes one order). -/
def FS.childEntries (fs : FS) (k : List String) : List (String × Bool) :=
  (fs.files.map (fun e => e.1)).filterMap
      (fun l => (childName k l).map (fun n => (n, false))) ++
    fs.dirs.filterMap (fun l => (childName k l).map (fun n => (n, true)))

/-- Model of `fs.readdir(p, { withFileTypes: true })`. -/
def FS.readdirOp (fs : FS) (p : String) : Except String (List (String × Bool)) :=
  let k := splitPath p
  if !k.isEmpty && !fs.hasDir k then
    Except.error ("ENOENT: no such file or directory, scandir '" ++ p ++ "'")
  else
    Except.ok (fs.childEntries k)

/-- Model of `fs.mkdir(p, { recursive: true })`: create the directory and
any missing ancestors; fails only when a file occupies the target. -/
def FS.mkdirPOp (fs : FS) (p : String) : Except String FS :=
  let k := splitPath p
  if (fs.fileContent k).isSome then
    Except.error ("EEXIST: file already exists, mkdir '" ++ p ++ "'")
  else
    Except.ok { fs with dirs := fs.dirs ++
      (((List.range k.length).map (fun i => k.take (i + 1))).filter
        (fun d => !fs.dirs.contains d)) }

/-- Model of plain `fs.mkdir(p)`: fails when the target exists or the parent
is missing. -/
def FS.mkdirOp (fs : FS) (p : String) : Except String FS :=
  let k := splitPath p
  if fs.existsAt k then
    Except.error ("EEXIST: file already exists, mkdir '" ++ p ++ "'")
  else if !k.dropLast.isEmpty && !fs.hasDir k.dropLast then
    Except.error ("ENOENT: no such file or directory, mkdir '" ++ p ++ "'")
  else
    Except.ok { fs with dirs := fs.dirs ++ [k] }

/-- Model of `fs.cp(src, dst, { recursive })`: copy the subtree at `src`
onto `dst`, overwriting colliding files and merging directories; fails when
the source does not exist. -/
def FS.cpOp (fs : FS) (srcP dstP : String) : Except String FS :=
  let src := splitPath srcP
  let dst := splitPath dstP
  if !fs.existsAt src then
    Except.error ("ENOENT: no such file or directory, cp '" ++ srcP ++ "'")
  else
    Except.ok
      { files := fs.files.filter
            (fun e => !(isUnder dst e.1 && fs.existsAt (src ++ e.1.drop dst.length))) ++
          fs.files.filterMap
            (fun e => if isUnder src e.1 then
              some (dst ++ e.1.drop src.length, e.2) else none),
        dirs := fs.dirs ++ fs.dirs.filterMap
            (fun d => if isUnder src d then
              some (dst ++ d.drop src.length) else none) }

/-- Model of `fs.rm(p, { recursive, force: true })`: drop the subtree;
`force` makes a missing target a no-op, so the model never fails. -/
def FS.rmOp (fs : FS) (p : String) : FS :=
  let k := splitPath p
  { files := fs.files.filter (fun e => !(isUnder k e.1)),
    dirs := fs.dirs.filter (fun d => !(isUnder k d)) }

/-! ## Server embedding: world, tool calls, handler bodies, dispatch -/

/-- Model of JavaScript `Array.prototype.join`. -/
def jsJoin (sep : String) : List String → String
  | [] => ""
  | [x] => x
  | x :: y :: xs => x ++ sep ++ jsJoin sep (y :: xs)

/-- The command line `runGit` hands to `exec`: naive whitespace joining. -/
def gitCmdLine (args : List String) : String := "git " ++ jsJoin " " args

/-- JS truthiness of an optional string argument pushed onto an argv list:
`undefined` and `""` are falsy and push nothing. -/
def optArg : Option String → List String
  | some s => if s = "" then [] else [s]
  | none => []

/-- Model of `message.replace(/"/g, '\\"')`: every double quote becomes a
backslash followed by a double quote. -/
def escapeQuotes (s : String) : String :=
  String.mk (s.data.flatMap (fun c => if c = '"' then ['\\', '"'] else [c]))

structure ToolResult where
  content : List String
  isError : Bool
deriving DecidableEq

/-- Mutable server state: the process-wide `workspaceFolderName` and the
filesystem. -/
structure Sys where
  st : Option String
  fs : FS
deriving DecidableEq

/-- The environment a call runs in: `process.env`, the `exec` oracle mapping
a command line and working directory to stdout or a failure message, and
the value `crypto.randomUUID()` returns during this call. -/
structure World where
  env : String → Option String
  exec : String → String → Except String String
  uuid : String

/-- `runGit` from the isolated-workspace server; also records the command
line that was handed to `exec` (empty when `getWorkspaceDir` throws first). -/
def runGit (w : World) (st : Option String) (args : List String) :
    Except String String × List String :=
  match getWorkspaceDir st with
  | Except.error e => (Except.error e, [])
  | Except.ok dir => (w.exec (gitCmdLine args) dir, [gitCmdLine args])

def readFileBody (sys : Sys) (name : String) : Except String String :=
  match getWorkspaceFilePath sys.st name with
  | Except.error e => Except.error e
  | Except.ok p => sys.fs.readFileOp p

def writeFileBody (sys : Sys) (name content : String) :
    Except String String × Sys :=
  match getWorkspaceFilePath sys.st name with
  | Except.error e => (Except.error e, sys)
  | Except.ok p =>
    match sys.fs.writeFileOp p content with
    | Except.error e => (Except.error e, sys)
    | Except.ok fs' =>
      (Except.ok ("Successfully wrote to " ++ name), { sys with fs := fs' })

def deleteFileBody (sys : Sys) (name : String) : Except String String × Sys :=
  match getWorkspaceFilePath sys.st name with
  | Except.error e => (Except.error e, sys)
  | Except.ok p =>
    match sys.fs.unlinkOp p with
    | Except.error e => (Except.error e, sys)
    | Except.ok fs' =>
      (Except.ok ("Successfully deleted " ++ name), { sys with fs := fs' })

def listDirBody (sys : Sys) : Except String String :=
  match getWorkspaceDir sys.st with
  | Except.error e => Except.error e
  | Except.ok p =>
    match sys.fs.readdirOp p with
    | Except.error e => Except.error e
    | Except.ok entries =>
      Except.ok (jsJoin "\n" (entries.map
        (fun en => (if en.2 then "dir" else "file") ++ "\t" ++ en.1)))

/-- One iteration of the relocation loop of `initialize_work`: copy the
entry into the new folder, then remove the original.  The entry's
`isDirectory()` flag only selects the `recursive` option of `cp`, which the
subtree-copy model covers for both entry kinds, so it is not needed here. -/
def moveOne (fs : FS) (folderPath name : String) : Except String FS :=
  let sourcePath := pathJoin WORKSPACE_ROOT name
  let destinationPath := pathJoin folderPath name
  match fs.cpOp sourcePath destinationPath with
  | Except.error e => Except.error e
  | Except.ok fs' => Except.ok (fs'.rmOp sourcePath)

/-- The relocation loop: skip the newly created folder, move every other
entry; on error, return the filesystem reached so far. -/
def moveLoop (fs : FS) (folderName folderPath : String) :
    List String → Except (String × FS) FS
  | [] => Except.ok fs
  | n :: rest =>
    if n = folderName then moveLoop fs folderName folderPath rest
    else
      match moveOne fs folderPath n with
      | Except.error e => Except.error (e, fs)
      | Except.ok fs' => moveLoop fs' folderName folderPath rest

/-- The `initialize_work` handler's try block: make the root, make the fresh
folder, enumerate the root, relocate every other entry, then record the
folder name as the active workspace.  Any failure leaves the identifier
untouched but keeps the filesystem mutations made so far. -/
def initializeBody (w : World) (sys : Sys) : Except String String × Sys :=
  let folderName := w.uuid
  let folderPath := pathJoin WORKSPACE_ROOT folderName
  match sys.fs.mkdirPOp WORKSPACE_ROOT with
  | Except.error e => (Except.error e, sys)
  | Except.ok fs1 =>
    match fs1.mkdirOp folderPath with
    | Except.error e => (Except.error e, { sys with fs := fs1 })
    | Except.ok fs2 =>
      match fs2.readdirOp WORKSPACE_ROOT with
      | Except.error e => (Except.error e, { sys with fs := fs2 })
      | Except.ok entries =>
        match moveLoop fs2 folderName folderPath (entries.map (fun e => e.1)) with
        | Except.error ef => (Except.error ef.1, { sys with fs := ef.2 })
        | Except.ok fs3 =>
          (Except.ok ("Initialized workspace folder: " ++ folderName),
            { st := some folderName, fs := fs3 })

def gitSimpleBody (w : World) (sys : Sys) (args : List String) :
    Except String String × List String :=
  runGit w sys.st args

def gitAddBody (w : World) (sys : Sys) (files : List String) :
    Except String String × List String :=
  match runGit w sys.st (["add"] ++ files) with
  | (Except.error e, tr) => (Except.error e, tr)
  | (Except.ok _, tr) =>
    (Except.ok ("Successfully added: " ++ jsJoin ", " files), tr)

def gitCommitArgs (message : String) : List String :=
  ["commit", "-m", "\"" ++ escapeQuotes message ++ "\""]

def gitDiffArgs (staged : Option Bool) (file : Option String) : List String :=
  ["diff"] ++ (if staged = some true then ["--staged"] else []) ++ optArg file

def gitBranchDeleteArgs (branch : String) (force : Option Bool) : List String :=
  ["branch", if force = some true then "-D" else "-d", branch]

/-- Model of `repo.replace(/^https?:\/\//, "")`. -/
def stripHttp (s : String) : String :=
  if jsStartsWith s "https://" then String.mk (s.data.drop 8)
  else if jsStartsWith s "http://" then String.mk (s.data.drop 7)
  else s

/-- Model of `.replace(/^[^@]+@/, "")`: drop a leading non-empty run of
characters other than `'@'` together with the `'@'` that follows it. -/
def stripUserinfo (s : String) : String :=
  let pre := s.data.takeWhile (fun c => c != '@')
  if pre.length ≠ 0 ∧ pre.length < s.data.length then
    String.mk (s.data.drop (pre.length + 1))
  else s

/-- Model of `.replace(/\/+$/, "")`. -/
def stripTrailingSlashes (s : String) : String :=
  String.mk ((s.data.reverse.dropWhile (fun c => c == '/')).reverse)

def remoteBody (w : World) (sys : Sys) (repo token : String) :
    Except String String × List String :=
  let repoWithoutScheme := stripTrailingSlashes (stripUserinfo (stripHttp repo))
  let url := "https://" ++ token ++ "@" ++ repoWithoutScheme
  match runGit w sys.st ["remote", "set-url", "origin", url] with
  | (Except.ok out, tr) =>
    (Except.ok (if out = "" then "Remote URL updated." else out), tr)
  | (Except.error e, tr) => (Except.error e, tr)

def branchCreateAndPushBody (w : World) (sys : Sys) (branch : String)
    (startPoint : Option String) : Except String String × List String :=
  match runGit w sys.st (["checkout", "-b", branch] ++ optArg startPoint) with
  | (Except.error e, tr) => (Except.error e, tr)
  | (Except.ok createStdout, tr1) =>
    match runGit w sys.st ["push", "-u", "origin", branch] with
    | (Except.error e, tr2) => (Except.error e, tr1 ++ tr2)
    | (Except.ok pushStdout, tr2) =>
      (Except.ok (createStdout ++ pushStdout), tr1 ++ tr2)

/-- JS truthiness for the env vars: `undefined` and `""` are both falsy. -/
def getEnvNonEmpty (w : World) (k : String) : Option String :=
  match w.env k with
  | some s => if s = "" then none else some s
  | none => none

def missingEnvMsg : String :=
  "Missing PROJECT_REPO or GITHUB_TOKEN environment variable."

def envMissing (w : World) : Bool :=
  (getEnvNonEmpty w "PROJECT_REPO").isNone ||
    (getEnvNonEmpty w "GITHUB_TOKEN").isNone

/-- A validated tool call of the isolated-workspace server. -/
inductive ToolCall where
  | initialize_work
  | read_file (name : String)
  | write_file (name content : String)
  | delete_file (name : String)
  | list_dir
  | git_status
  | git_diff (staged : Option Bool) (file : Option String)
  | git_add (files : List String)
  | git_commit (message : String)
  | git_log (limit : Int)
  | git_remote_set_url_from_env
  | git_branch_delete (branch : String) (force : Option Bool)
  | git_branch_create_and_push (branch : String) (startPoint : Option String)
deriving DecidableEq

/-- The per-handler catch block: a success becomes a single text item with
`isError` defaulting to false, a thrown error becomes a single text item
with the handler's label and the error's message, `isError` true. -/
def wrapResult (pre : String) (o : Except String String) : ToolResult :=
  match o with
  | Except.ok s => { content := [s], isError := false }
  | Except.error e => { content := [pre ++ e], isError := true }

/-- The label each handler's catch block puts before the error message. -/
def errLabel : ToolCall → String
  | ToolCall.initialize_work => "Error initializing workspace: "
  | ToolCall.read_file _ => "Error reading file: "
  | ToolCall.write_file _ _ => "Error writing file: "
  | ToolCall.delete_file _ => "Error deleting file: "
  | ToolCall.list_dir => "Error listing directory: "
  | ToolCall.git_status => "Error running git status: "
  | ToolCall.git_diff _ _ => "Error running git diff: "
  | ToolCall.git_add _ => "Error running git add: "
  | ToolCall.git_commit _ => "Error running git commit: "
  | ToolCall.git_log _ => "Error running git log: "
  | ToolCall.git_remote_set_url_from_env => "Error setting git remote URL: "
  | ToolCall.git_branch_delete _ _ => "Error deleting git branch: "
  | ToolCall.git_branch_create_and_push _ _ =>
    "Error creating and pushing git branch: "

/-- The outcome of a handler's try block (the text of a success, or the
message of the thrown error); for `git_remote_set_url_from_env` the missing
env-variable early return is folded in as an error value. -/
def bodyOutcome (w : World) (sys : Sys) : ToolCall → Except String String
  | ToolCall.initialize_work => (initializeBody w sys).1
  | ToolCall.read_file name => readFileBody sys name
  | ToolCall.write_file name content => (writeFileBody sys name content).1
  | ToolCall.delete_file name => (deleteFileBody sys name).1
  | ToolCall.list_dir => listDirBody sys
  | ToolCall.git_status => (gitSimpleBody w sys ["status"]).1
  | ToolCall.git_diff staged file => (gitSimpleBody w sys (gitDiffArgs staged file)).1
  | ToolCall.git_add files => (gitAddBody w sys files).1
  | ToolCall.git_commit message => (gitSimpleBody w sys (gitCommitArgs message)).1
  | ToolCall.git_log limit => (gitSimpleBody w sys ["log", "-n", toString limit]).1
  | ToolCall.git_remote_set_url_from_env =>
    match getEnvNonEmpty w "PROJECT_REPO", getEnvNonEmpty w "GITHUB_TOKEN" with
    | some repo, some token => (remoteBody w sys repo token).1
    | _, _ => Except.error missingEnvMsg
  | ToolCall.git_branch_delete branch force =>
    (gitSimpleBody w sys (gitBranchDeleteArgs branch force)).1
  | ToolCall.git_branch_create_and_push branch startPoint =>
    (branchCreateAndPushBody w sys branch startPoint).1

/-- Dispatch of one validated call: run the handler, return the wrapped
result, the updated state, and the git command lines that were issued.
Total by construction — no handler lets an exception escape. -/
def dispatch (w : World) (sys : Sys) : ToolCall → ToolResult × Sys × List String
  | ToolCall.initialize_work =>
    let r := initializeBody w sys
    (wrapResult "Error initializing workspace: " r.1, r.2, [])
  | ToolCall.read_file name =>
    (wrapResult "Error reading file: " (readFileBody sys name), sys, [])
  | ToolCall.write_file name content =>
    let r := writeFileBody sys name content
    (wrapResult "Error writing file: " r.1, r.2, [])
  | ToolCall.delete_file name =>
    let r := deleteFileBody sys name
    (wrapResult "Error deleting file: " r.1, r.2, [])
  | ToolCall.list_dir =>
    (wrapResult "Error listing directory: " (listDirBody sys), sys, [])
  | ToolCall.git_status =>
    let r := gitSimpleBody w sys ["status"]
    (wrapResult "Error running git status: " r.1, sys, r.2)
  | ToolCall.git_diff staged file =>
    let r := gitSimpleBody w sys (gitDiffArgs staged file)
    (wrapResult "Error running git diff: " r.1, sys, r.2)
  | ToolCall.git_add files =>
    let r := gitAddBody w sys files
    (wrapResult "Error running git add: " r.1, sys, r.2)
  | ToolCall.git_commit message =>
    let r := gitSimpleBody w sys (gitCommitArgs message)
    (wrapResult "Error running git commit: " r.1, sys, r.2)
  | ToolCall.git_log limit =>
    let r := gitSimpleBody w sys ["log", "-n", toString limit]
    (wrapResult "Error running git log: " r.1, sys, r.2)
  | ToolCall.git_remote_set_url_from_env =>
    match getEnvNonEmpty w "PROJECT_REPO", getEnvNonEmpty w "GITHUB_TOKEN" with
    | some repo, some token =>
      let r := remoteBody w sys repo token
      (wrapResult "Error setting git remote URL: " r.1, sys, r.2)
    | _, _ => ({ content := [missingEnvMsg], isError := true }, sys, [])
  | ToolCall.git_branch_delete branch force =>
    let r := gitSimpleBody w sys (gitBranchDeleteArgs branch force)
    (wrapResult "Error deleting git branch: " r.1, sys, r.2)
  | ToolCall.git_branch_create_and_push branch startPoint =>
    let r := branchCreateAndPushBody w sys branch startPoint
    (wrapResult "Error creating and pushing git branch: " r.1, sys, r.2)

/-! ## The `repoPath`-parameterised variant (`src/server.js`) -/

namespace ServerJs

/-- Environment of the non-isolated variant: `process.cwd()` and `exec`. -/
structure World where
  cwd : String
  exec : String → String → Except String String

/-- `repoPath ? path.resolve(repoPath) : process.cwd()` — a missing or
empty (falsy) `repoPath` falls back to the current directory; otherwise the
path is resolved against it. -/
def resolveRepoPath (w : World) : Option String → String
  | some rp => if rp = "" then w.cwd else pathResolveIn w.cwd rp
  | none => w.cwd

def runGit (w : World) (args : List String) (repoPath : Option String) :
    Except String String × List String :=
  (w.exec (gitCmdLine args) (resolveRepoPath w repoPath), [gitCmdLine args])

/-- The `git_branch_create` handler of `src/server.js`. -/
def gitBranchCreate (w : World) (branch : String) (startPoint : Option String)
    (repoPath : Option String) : ToolResult × List String :=
  match runGit w (["branch", branch] ++ optArg startPoint) repoPath with
  | (Except.ok out, tr) => ({ content := [out], isError := false }, tr)
  | (Except.error e, tr) =>
    ({ content := ["Error creating git branch: " ++ e], isError := true }, tr)

end ServerJs

/-! ## Well-formedness and relocation invariants -/

/-- The entry names produced by enumerating a directory. -/
def FS.childNames (fs : FS) (k : List String) : List String :=
  (fs.childEntries k).map (fun e => e.1)

/-- Every segment of every key names a real directory entry. -/
def FS.cleanKeys (fs : FS) : Prop :=
  (∀ e ∈ fs.files, ∀ s ∈ e.1, cleanSeg s) ∧
    (∀ d ∈ fs.dirs, ∀ s ∈ d, cleanSeg s)

/-- Every proper ancestor of a key is a directory (true of a real tree). -/
def FS.treeClosed (fs : FS) : Prop :=
  ∀ k, (k ∈ fs.files.map (fun e => e.1) ∨ k ∈ fs.dirs) →
    ∀ i, 0 < i → i < k.length → k.take i ∈ fs.dirs

def FS.wf (fs : FS) : Prop := fs.cleanKeys ∧ fs.treeClosed

/-- Nothing lives strictly below the freshly created workspace folder. -/
def NothingUnderFolder (fs2 : FS) (u : String) : Prop :=
  ∀ rest : List String, rest ≠ [] →
    fs2.fileContent (["workspace", u] ++ rest) = none ∧
      (["workspace", u] ++ rest) ∉ fs2.dirs

/-- State of the filesystem after the relocation loop has moved the entries
named in `P` out of the root and into the folder `u`, relative to the
filesystem `fs2` the loop started from. -/
def MovedInv (fs2 : FS) (u : String) (P : List String) (fs : FS) : Prop :=
  (∀ n ∈ P, ∀ rest : List String,
    fs.fileContent ("workspace" :: u :: n :: rest) =
      fs2.fileContent ("workspace" :: n :: rest)) ∧
  (∀ n ∈ P, ∀ rest : List String,
    (("workspace" :: u :: n :: rest) ∈ fs.dirs ↔
      ("workspace" :: n :: rest) ∈ fs2.dirs)) ∧
  (∀ n ∈ P, ∀ rest : List String,
    fs.fileContent ("workspace" :: n :: rest) = none ∧
      ("workspace" :: n :: rest) ∉ fs.dirs) ∧
  (∀ q : List String,
    (∀ n ∈ P, ¬ Lead ["workspace", n] q ∧ ¬ Lead ["workspace", u, n] q) →
    (fs.fileContent q = fs2.fileContent q ∧ (q ∈ fs.dirs ↔ q ∈ fs2.dirs)))

/-! ## Concrete instances used by witnesses and counterexamples -/

/-- Substring test on the character lists of two strings. -/
def hasSub (s sub : String) : Bool :=
  (List.range (s.data.length + 1)).any
    (fun i => ((s.data.drop i).take sub.data.length) == sub.data)

/-- A world with no environment variables, an `exec` oracle that always
succeeds with empty stdout, and identifier `"u1"`. -/
def exWorld : World :=
  { env := fun _ => none, exec := fun _ _ => Except.ok "", uuid := "u1" }

/-- The same world with identifier `"u2"`. -/
def exWorld2 : World :=
  { env := fun _ => none, exec := fun _ _ => Except.ok "", uuid := "u2" }

/-- Fresh server state: no active workspace, empty filesystem. -/
def exSys : Sys := { st := none, fs := { files := [], dirs := [] } }

/-- State after a workspace `"u1"` has been created and activated. -/
def exSysInit : Sys :=
  { st := some "u1",
    fs := { files := [], dirs := [["workspace"], ["workspace", "u1"]] } }

/-- State whose root path is occupied by a file, so `mkdir /workspace`
fails. -/
def exSysBad : Sys :=
  { st := none, fs := { files := [(["workspace"], "f")], dirs := [] } }

/-- State with one loose file at `/workspace/a.txt` before initialization. -/
def exSysFile : Sys :=
  { st := none,
    fs := { files := [(["workspace", "a.txt"], "hi")], dirs := [["workspace"]] } }

/-- A world for the `repoPath`-parameterised variant. -/
def exWorldS : ServerJs.World :=
  { cwd := "/repo", exec := fun _ _ => Except.ok "" }

/-! ## Lemma layer -/

theorem Lead.nil {α : Type} (b : List α) : Lead [] b := ⟨b, rfl⟩

theorem lead_cons_cons {α : Type} {x y : α} {a b : List α} :
    Lead (x :: a) (y :: b) ↔ x = y ∧ Lead a b := by
  constructor
  · rintro ⟨t, ht⟩
    simp only [List.cons_append, List.cons.injEq] at ht
    exact ⟨ht.1.symm, t, ht.2⟩
  · rintro ⟨rfl, t, rfl⟩
    exact ⟨t, rfl⟩

theorem lead_nil_right {α : Type} {a : List α} : Lead a [] ↔ a = [] := by
  constructor
  · rintro ⟨t, ht⟩
    cases a with
    | nil => rfl
    | cons x xs => simp at ht
  · rintro rfl; exact ⟨[], rfl⟩

theorem lead_take {α : Type} [DecidableEq α] {a b : List α} :
    (b.take a.length = a) ↔ Lead a b := by
  constructor
  · intro h
    exact ⟨b.drop a.length, by conv_lhs => rw [← List.take_append_drop a.length b, h]⟩
  · rintro ⟨t, rfl⟩
    induction a with
    | nil => rfl
    | cons x xs ih => simp [ih]

theorem lead_append {α : Type} (a t : List α) : Lead a (a ++ t) := ⟨t, rfl⟩

theorem lead_refl {α : Type} (a : List α) : Lead a a := ⟨[], by simp⟩

theorem splitCh_ne_nil (l : List Char) : splitCh l ≠ [] := by
  induction l with
  | nil => simp [splitCh]
  | cons c cs ih =>
    by_cases hc : c = '/'
    · simp [splitCh, hc]
    · simp only [splitCh, if_neg hc]
      cases h : splitCh cs with
      | nil => simp
      | cons g gs => simp

theorem jsStartsWith_iff {s pre : String} :
    jsStartsWith s pre = true ↔ Lead pre.data s.data := by
  simp only [jsStartsWith, decide_eq_true_eq]
  exact lead_take

theorem cleanSeg.good {s : String} (h : cleanSeg s) : goodSeg s := ⟨h.1, h.2.2.2⟩

/-! ## String and rendering lemmas -/

theorem str_data_append (a b : String) : (a ++ b).data = a.data ++ b.data := rfl

theorem str_mk_data (s : String) : String.mk s.data = s := rfl

theorem str_data_mk (l : List Char) : (String.mk l).data = l := rfl

theorem str_eq_empty_iff {s : String} : s = "" ↔ s.data = [] := by
  constructor
  · intro h; rw [h]
  · intro h
    cases s with
    | mk d =>
      have hd : d = [] := h
      subst hd
      rfl

theorem str_ne_empty_iff {s : String} : s ≠ "" ↔ s.data ≠ [] :=
  not_congr str_eq_empty_iff

theorem renderSegs_append (a b : List String) :
    renderSegs (a ++ b) = renderSegs a ++ renderSegs b := by
  induction a with
  | nil => simp [renderSegs]
  | cons s rest ih => simp [renderSegs, ih]

theorem renderSegs_cons_shape (s : String) (rest : List String) :
    renderSegs (s :: rest) = '/' :: (s.data ++ renderSegs rest) := rfl

theorem splitCh_slash (l : List Char) : splitCh ('/' :: l) = [] :: splitCh l := by
  simp [splitCh]

theorem splitCh_cons_of_ne {a : Char} (as : List Char) (ha : a ≠ '/')
    {g : List Char} {gs : List (List Char)} (hgs : splitCh as = g :: gs) :
    splitCh (a :: as) = (a :: g) :: gs := by
  unfold splitCh
  rw [if_neg ha, hgs]

theorem splitCh_shape (l : List Char) : ∃ g gs, splitCh l = g :: gs := by
  cases hh : splitCh l with
  | nil => exact absurd hh (splitCh_ne_nil l)
  | cons g gs => exact ⟨g, gs, rfl⟩

theorem splitCh_free_append (x : List Char) (m : List Char)
    (hx : ∀ c ∈ x, c ≠ '/') :
    ∀ g gs, splitCh m = g :: gs → splitCh (x ++ m) = (x ++ g) :: gs := by
  induction x with
  | nil => intro g gs h; simpa using h
  | cons c cs ih =>
    intro g gs h
    have hc : c ≠ '/' := hx c (by simp)
    have ih' := ih (fun d hd => hx d (by simp [hd])) g gs h
    rw [List.cons_append, splitCh_cons_of_ne _ hc ih', List.cons_append]

theorem splitCh_no_slash (l : List Char) :
    ∀ d ∈ splitCh l, ∀ c ∈ d, c ≠ '/' := by
  induction l with
  | nil =>
    intro d hd c hc
    simp only [splitCh, List.mem_singleton] at hd
    subst hd
    simp at hc
  | cons a as ih =>
    intro d hd c hc
    by_cases ha : a = '/'
    · subst ha
      rw [splitCh_slash] at hd
      rcases List.mem_cons.mp hd with rfl | hd'
      · simp at hc
      · exact ih d hd' c hc
    · obtain ⟨g, gs, hgs⟩ := splitCh_shape as
      rw [splitCh_cons_of_ne _ ha hgs] at hd
      rcases List.mem_cons.mp hd with rfl | hd'
      · rcases List.mem_cons.mp hc with rfl | hc'
        · exact ha
        · exact ih g (by rw [hgs]; exact List.mem_cons_self g gs) c hc'
      · exact ih d (by rw [hgs]; exact List.mem_cons_of_mem g hd') c hc

theorem splitCh_renderSegs (gs : List String) (h : ∀ s ∈ gs, goodSeg s) :
    splitCh (renderSegs gs) = [] :: gs.map String.data := by
  induction gs with
  | nil => rfl
  | cons s rest ih =>
    have hs : goodSeg s := h s (by simp)
    have hfree : ∀ c ∈ s.data, c ≠ '/' := fun c hc he => hs.2 (he ▸ hc)
    have hrest := ih (fun t ht => h t (by simp [ht]))
    have happ := splitCh_free_append s.data (renderSegs rest) hfree
      [] (rest.map String.data) hrest
    calc splitCh (renderSegs (s :: rest))
        = splitCh ('/' :: (s.data ++ renderSegs rest)) := rfl
      _ = [] :: splitCh (s.data ++ renderSegs rest) := splitCh_slash _
      _ = [] :: (s.data ++ []) :: rest.map String.data := by rw [happ]
      _ = [] :: (s :: rest).map String.data := by simp

theorem splitPath_renderAbs (gs : List String) (h : ∀ s ∈ gs, goodSeg s) :
    splitPath (renderAbs gs) = gs := by
  cases gs with
  | nil => rfl
  | cons s rest =>
    have hcons : (s :: rest) ≠ ([] : List String) := by simp
    simp only [renderAbs, if_neg hcons, splitPath, str_data_mk]
    rw [splitCh_renderSegs _ h]
    have hkeep : ∀ x ∈ (s :: rest).map String.data, x ≠ ([] : List Char) := by
      intro x hx
      obtain ⟨t, ht, rfl⟩ := List.mem_map.mp hx
      exact str_ne_empty_iff.mp (h t ht).1
    rw [List.filter_cons]
    simp only [decide_not]
    rw [List.filter_eq_self.mpr (by intro a ha; simpa using hkeep a ha)]
    simp [List.map_map, Function.comp_def, str_mk_data]

/-- Every raw split segment is non-empty and separator-free. -/
theorem splitPath_good (s : String) : ∀ x ∈ splitPath s, goodSeg x := by
  intro x hx
  simp only [splitPath, List.mem_map, List.mem_filter] at hx
  obtain ⟨l, ⟨hl, hlne⟩, rfl⟩ := hx
  refine ⟨?_, ?_⟩
  · rw [str_ne_empty_iff, str_data_mk]
    simpa using hlne
  · rw [str_data_mk]
    intro hc
    exact splitCh_no_slash s.data l hl '/' hc rfl

/-! ## Normalization lemmas -/

theorem normSegs_append (a b : List String) :
    normSegs (a ++ b) = b.foldl normStep (normSegs a) := by
  simp [normSegs, List.foldl_append]

theorem foldl_normStep_clean (l : List String) :
    ∀ acc, (∀ s ∈ l, s ≠ "." ∧ s ≠ "..") →
      l.foldl normStep acc = acc ++ l := by
  induction l with
  | nil => intro acc _; simp
  | cons s rest ih =>
    intro acc h
    have hs := h s (by simp)
    simp only [List.foldl_cons, normStep, if_neg hs.1, if_neg hs.2]
    rw [ih _ (fun t ht => h t (by simp [ht]))]
    simp

theorem normSegs_clean (l : List String) (h : ∀ s ∈ l, s ≠ "." ∧ s ≠ "..") :
    normSegs l = l := by
  simpa [normSegs] using foldl_normStep_clean l [] h

theorem mem_foldl_normStep (l : List String) :
    ∀ acc x, x ∈ l.foldl normStep acc → x ∈ acc ∨ x ∈ l := by
  induction l with
  | nil => intro acc x hx; exact Or.inl hx
  | cons s rest ih =>
    intro acc x hx
    rcases ih (normStep acc s) x hx with h | h
    · unfold normStep at h
      split at h
      · exact Or.inl h
      · split at h
        · exact Or.inl ((List.dropLast_sublist _).subset h)
        · rcases List.mem_append.mp h with h | h
          · exact Or.inl h
          · simp only [List.mem_singleton] at h
            subst h
            exact Or.inr (by simp)
    · exact Or.inr (by simp [h])

theorem mem_normSegs {l : List String} {x : String} (hx : x ∈ normSegs l) :
    x ∈ l := by
  rcases mem_foldl_normStep l [] x hx with h | h
  · simp at h
  · exact h

theorem normSegs_good {l : List String} (h : ∀ s ∈ l, goodSeg s) :
    ∀ s ∈ normSegs l, goodSeg s :=
  fun s hs => h s (mem_normSegs hs)

/-! ## The containment equivalence -/

/-- If a separator-free run followed by a separator leads a list that is a
separator-free run followed by a rendering tail, the free runs agree and the
separator run continues into the tail. -/
theorem lead_free_slash {x y : List Char} :
    ∀ (r z : List Char), (∀ c ∈ x, c ≠ '/') → (∀ c ∈ y, c ≠ '/') →
      (z = [] ∨ ∃ z', z = '/' :: z') →
      (Lead (x ++ '/' :: r) (y ++ z) ↔ x = y ∧ Lead ('/' :: r) z) := by
  induction x generalizing y with
  | nil =>
    intro r z _ hy hz
    cases y with
    | nil => simp
    | cons c y' =>
      have hc : c ≠ '/' := hy c (by simp)
      constructor
      · intro hl
        simp only [List.nil_append, List.cons_append] at hl
        rw [lead_cons_cons] at hl
        exact absurd hl.1.symm hc
      · rintro ⟨h, _⟩
        simp at h
  | cons c x' ih =>
    intro r z hx hy hz
    have hc : c ≠ '/' := hx c (by simp)
    cases y with
    | nil =>
      simp only [List.nil_append]
      constructor
      · intro hl
        rcases hz with rfl | ⟨z', rfl⟩
        · rw [lead_nil_right] at hl
          simp at hl
        · rw [List.cons_append, lead_cons_cons] at hl
          exact absurd hl.1 hc
      · rintro ⟨h, _⟩
        simp at h
    | cons c' y' =>
      simp only [List.cons_append]
      rw [lead_cons_cons]
      rw [ih r z (fun d hd => hx d (by simp [hd])) (fun d hd => hy d (by simp [hd])) hz]
      constructor
      · rintro ⟨rfl, rfl, h⟩
        exact ⟨rfl, h⟩
      · rintro ⟨h, h'⟩
        simp only [List.cons.injEq] at h
        exact ⟨h.1, h.2, h'⟩

theorem renderSegs_cons_exists (s : String) (rest : List String) :
    ∃ q, renderSegs (s :: rest) = '/' :: q :=
  ⟨s.data ++ renderSegs rest, rfl⟩

/-- Core equivalence: the rendered form of `b` starts with the rendered form
of `a` followed by a separator exactly when `a` is a proper initial run of
`b` (for separator-free non-empty segments, `a` non-empty). -/
theorem lead_render_iff :
    ∀ (a : List String), (∀ s ∈ a, goodSeg s) → a ≠ [] →
    ∀ (b : List String), (∀ s ∈ b, goodSeg s) →
      (Lead (renderSegs a ++ ['/']) (renderSegs b) ↔ (Lead a b ∧ a ≠ b)) := by
  intro a
  induction a with
  | nil => intro _ h; exact absurd rfl h
  | cons s a' ih =>
    intro ha _ b hb
    cases b with
    | nil =>
      simp only [renderSegs]
      constructor
      · intro hl
        rw [lead_nil_right] at hl
        simp at hl
      · rintro ⟨h, _⟩
        rw [lead_nil_right] at h
        simp at h
    | cons s' b' =>
      have hs : goodSeg s := ha s (by simp)
      have hs' : goodSeg s' := hb s' (by simp)
      have hfs : ∀ c ∈ s.data, c ≠ '/' := fun c hc he => hs.2 (he ▸ hc)
      have hfs' : ∀ c ∈ s'.data, c ≠ '/' := fun c hc he => hs'.2 (he ▸ hc)
      have hz : renderSegs b' = [] ∨ ∃ z', renderSegs b' = '/' :: z' := by
        cases b' with
        | nil => exact Or.inl rfl
        | cons t ts => exact Or.inr (renderSegs_cons_exists t ts)
      cases a' with
      | nil =>
        constructor
        · intro hl
          rw [renderSegs_cons_shape s [], renderSegs_cons_shape s'] at hl
          simp only [List.cons_append] at hl
          rw [lead_cons_cons] at hl
          have hl2 := hl.2
          have hshape : (s.data ++ renderSegs []) ++ ['/'] =
              s.data ++ '/' :: ([] : List Char) := by
            simp [renderSegs]
          rw [hshape, lead_free_slash [] (renderSegs b') hfs hfs' hz] at hl2
          obtain ⟨hdata, htail⟩ := hl2
          have hss' : s = s' := congrArg String.mk hdata
          subst hss'
          have hb'ne : b' ≠ [] := by
            intro he
            subst he
            obtain ⟨u, hu⟩ := htail
            simp [renderSegs] at hu
          refine ⟨⟨b', by simp⟩, ?_⟩
          intro he
          injection he with h1 h2
          exact hb'ne h2.symm
        · rintro ⟨⟨t, ht⟩, hne⟩
          simp only [List.singleton_append, List.cons.injEq] at ht
          obtain ⟨rfl, rfl⟩ := ht
          have htne : b' ≠ [] := by
            intro he
            subst he
            simp at hne
          obtain ⟨u, us, rfl⟩ : ∃ u us, b' = u :: us := by
            cases b' with
            | nil => exact absurd rfl htne
            | cons u us => exact ⟨u, us, rfl⟩
          refine ⟨u.data ++ renderSegs us, ?_⟩
          simp [renderSegs, List.append_assoc]
      | cons t a'' =>
        obtain ⟨q, hq⟩ := renderSegs_cons_exists t a''
        have hha : ∀ u ∈ t :: a'', goodSeg u := fun u hu => ha u (by simp [hu])
        have hhb : ∀ u ∈ b', goodSeg u := fun u hu => hb u (by simp [hu])
        have ihb := ih hha (by simp) b' hhb
        constructor
        · intro hl
          rw [renderSegs_cons_shape s (t :: a''), renderSegs_cons_shape s'] at hl
          simp only [List.cons_append] at hl
          rw [lead_cons_cons] at hl
          have hl2 := hl.2
          rw [hq] at hl2
          have hshape : (s.data ++ '/' :: q) ++ ['/'] =
              s.data ++ '/' :: (q ++ ['/']) := by simp
          rw [hshape, lead_free_slash (q ++ ['/']) (renderSegs b') hfs hfs' hz] at hl2
          obtain ⟨hdata, htail⟩ := hl2
          have hss' : s = s' := congrArg String.mk hdata
          subst hss'
          have htail' : Lead (renderSegs (t :: a'') ++ ['/']) (renderSegs b') := by
            rw [hq]
            simpa using htail
          have hrec := ihb.mp htail'
          constructor
          · exact lead_cons_cons.mpr ⟨rfl, hrec.1⟩
          · intro he
            injection he with h1 h2
            exact hrec.2 h2
        · rintro ⟨hlead, hne⟩
          rw [lead_cons_cons] at hlead
          obtain ⟨rfl, hlead'⟩ := hlead
          have hne' : t :: a'' ≠ b' := by
            intro he
            exact hne (by rw [he])
          have htail := ihb.mpr ⟨hlead', hne'⟩
          rw [renderSegs_cons_shape s (t :: a''), renderSegs_cons_shape s]
          simp only [List.cons_append]
          rw [lead_cons_cons]
          refine ⟨rfl, ?_⟩
          obtain ⟨u, hu⟩ := htail
          refine ⟨u, ?_⟩
          rw [hu]
          simp [List.append_assoc]

/-! ## Path corollaries for clean segment lists -/

theorem cleanSeg_goods {K : List String} (h : ∀ s ∈ K, cleanSeg s) :
    ∀ s ∈ K, goodSeg s := fun s hs => (h s hs).good

theorem renderAbs_data {gs : List String} (h : gs ≠ []) :
    (renderAbs gs).data = renderSegs gs := by
  simp [renderAbs, if_neg h, str_data_mk]

theorem renderSegs_length_pos {gs : List String} (h : gs ≠ []) :
    0 < (renderSegs gs).length := by
  cases gs with
  | nil => exact absurd rfl h
  | cons s rest => simp [renderSegs]

theorem splitPath_clean {K : List String} (h : ∀ s ∈ K, cleanSeg s) :
    splitPath (renderAbs K) = K :=
  splitPath_renderAbs K (cleanSeg_goods h)

theorem normSegs_of_clean {K : List String} (h : ∀ s ∈ K, cleanSeg s) :
    normSegs K = K :=
  normSegs_clean K (fun s hs => ⟨(h s hs).2.1, (h s hs).2.2.1⟩)

theorem pathResolveAbs_clean {K : List String} (h : ∀ s ∈ K, cleanSeg s) :
    pathResolveAbs (renderAbs K) = renderAbs K := by
  unfold pathResolveAbs
  rw [splitPath_clean h, normSegs_of_clean h]

theorem append_sep_renderAbs {gs : List String} (b : String) (hne : gs ≠ []) :
    renderAbs gs ++ "/" ++ b = renderAbs (gs ++ [b]) := by
  have h1 : (gs ++ [b]) ≠ ([] : List String) := by simp
  have hdata : (renderAbs gs ++ "/" ++ b).data = (renderAbs (gs ++ [b])).data := by
    rw [str_data_append, str_data_append, renderAbs_data hne, renderAbs_data h1,
      renderSegs_append]
    simp [renderSegs]
  calc renderAbs gs ++ "/" ++ b
      = String.mk (renderAbs gs ++ "/" ++ b).data := rfl
    _ = String.mk (renderAbs (gs ++ [b])).data := by rw [hdata]
    _ = renderAbs (gs ++ [b]) := rfl

theorem ws_cleanSeg : cleanSeg "workspace" := by decide

theorem root_eq_renderAbs : WORKSPACE_ROOT = renderAbs ["workspace"] := by decide

theorem pathJoin_renderAbs {gs : List String} (b : String)
    (hgs : ∀ s ∈ gs, cleanSeg s) (hne : gs ≠ []) (hb : cleanSeg b) :
    pathJoin (renderAbs gs) b = renderAbs (gs ++ [b]) := by
  unfold pathJoin
  rw [append_sep_renderAbs b hne]
  have hclean : ∀ s ∈ gs ++ [b], cleanSeg s := by
    intro s hs
    rcases List.mem_append.mp hs with h | h
    · exact hgs s h
    · simp only [List.mem_singleton] at h
      subst h
      exact hb
  rw [splitPath_clean hclean, normSegs_of_clean hclean]

theorem ws_f_clean {f : String} (hf : cleanSeg f) :
    ∀ x ∈ (["workspace", f] : List String), cleanSeg x := by
  intro x hx
  simp only [List.mem_cons, List.mem_singleton, List.not_mem_nil, or_false] at hx
  rcases hx with rfl | rfl
  · exact ws_cleanSeg
  · exact hf

theorem pathJoin_root (f : String) (hf : cleanSeg f) :
    pathJoin WORKSPACE_ROOT f = renderAbs ["workspace", f] := by
  have hws : ∀ x ∈ (["workspace"] : List String), cleanSeg x := by
    intro x hx
    simp only [List.mem_singleton] at hx
    subst hx
    exact ws_cleanSeg
  rw [root_eq_renderAbs, pathJoin_renderAbs f hws (by simp) hf]
  rfl

theorem jsStartsWith_render_strict {a b : List String}
    (ha : ∀ s ∈ a, goodSeg s) (hane : a ≠ []) (hb : ∀ s ∈ b, goodSeg s) :
    (jsStartsWith (renderAbs b) (renderAbs a ++ "/") = true) ↔
      (Lead a b ∧ a ≠ b) := by
  rw [jsStartsWith_iff]
  have hpre : (renderAbs a ++ "/").data = renderSegs a ++ ['/'] := by
    rw [str_data_append, renderAbs_data hane]
  cases b with
  | nil =>
    constructor
    · intro hl
      rw [hpre] at hl
      obtain ⟨t, ht⟩ := hl
      have hone : (renderAbs ([] : List String)).data = ['/'] := rfl
      rw [hone] at ht
      have hlen := congrArg List.length ht
      simp only [List.length_cons, List.length_nil, List.length_append] at hlen
      have hpos := renderSegs_length_pos hane
      omega
    · rintro ⟨hl, hne⟩
      rw [lead_nil_right] at hl
      exact absurd hl hane
  | cons s rest =>
    rw [hpre, renderAbs_data (show (s :: rest) ≠ [] by simp)]
    exact lead_render_iff a ha hane (s :: rest) hb

theorem getWorkspaceFilePath_some (f s0 : String) :
    getWorkspaceFilePath (some f) s0 =
      (if ¬ (jsStartsWith (pathResolveIn (pathJoin WORKSPACE_ROOT f) s0)
            (pathResolveAbs (pathJoin WORKSPACE_ROOT f) ++ "/") = true)
       then Except.error "Invalid file name."
       else Except.ok (pathResolveIn (pathJoin WORKSPACE_ROOT f) s0)) := rfl

/-- For a clean folder name and a relative file name, the resolver's three
computed values coincide with the spec-side join-normalize, and the string
containment check is equivalent to strict segment containment. -/
theorem resolver_check_iff (f s : String) (hf : cleanSeg f)
    (hs : jsStartsWith s "/" = false) :
    pathResolveIn (pathJoin WORKSPACE_ROOT f) s =
        specJoinNorm (pathJoin WORKSPACE_ROOT f) s ∧
    pathResolveAbs (pathJoin WORKSPACE_ROOT f) = pathJoin WORKSPACE_ROOT f ∧
    ((jsStartsWith (specJoinNorm (pathJoin WORKSPACE_ROOT f) s)
        (pathJoin WORKSPACE_ROOT f ++ "/") = true) ↔
      strictlyInside (pathJoin WORKSPACE_ROOT f)
        (specJoinNorm (pathJoin WORKSPACE_ROOT f) s)) := by
  have hroot := pathJoin_root f hf
  have hfs := ws_f_clean hf
  have hRsplit : splitPath (pathJoin WORKSPACE_ROOT f) = ["workspace", f] := by
    rw [hroot]
    exact splitPath_clean hfs
  have hKgood : ∀ x ∈ normSegs (["workspace", f] ++ splitPath s), goodSeg x := by
    intro x hx
    rcases List.mem_append.mp (mem_normSegs hx) with h | h
    · exact (hfs x h).good
    · exact splitPath_good s x h
  have hspecEq : specJoinNorm (pathJoin WORKSPACE_ROOT f) s =
      renderAbs (normSegs (["workspace", f] ++ splitPath s)) := by
    unfold specJoinNorm
    rw [hRsplit]
  refine ⟨?_, ?_, ?_⟩
  · unfold pathResolveIn specJoinNorm
    simp [hs]
  · rw [hroot]
    exact pathResolveAbs_clean hfs
  · rw [hspecEq]
    conv_lhs => rw [hroot]
    rw [jsStartsWith_render_strict (cleanSeg_goods hfs) (by simp) hKgood]
    unfold strictlyInside
    rw [hRsplit, splitPath_renderAbs _ hKgood, lead_take]


/-! ## Dispatch-level helper lemmas -/

theorem str_ext {a b : String} (h : a.data = b.data) : a = b := by
  calc a = String.mk a.data := rfl
    _ = String.mk b.data := by rw [h]
    _ = b := rfl

theorem wrapResult_ok (pre s : String) :
    wrapResult pre (Except.ok s) = { content := [s], isError := false } := rfl

theorem wrapResult_error (pre e : String) :
    wrapResult pre (Except.error e) =
      { content := [pre ++ e], isError := true } := rfl

/-- Behaviour of the per-handler catch block on each body outcome. -/
theorem wrap_spec (pre : String) (o : Except String String) :
    (∃ t, (wrapResult pre o).content = [t]) ∧
    (∀ e, o = Except.error e → (wrapResult pre o).isError = true ∧
      ∃ q, (wrapResult pre o).content = [q ++ e]) ∧
    (∀ s, o = Except.ok s →
      wrapResult pre o = { content := [s], isError := false }) := by
  cases o with
  | ok s =>
    refine ⟨⟨s, rfl⟩, ?_, ?_⟩
    · intro e he
      simp at he
    · intro s' hs
      cases hs
      rfl
  | error e =>
    refine ⟨⟨pre ++ e, rfl⟩, ?_, ?_⟩
    · intro e' he
      cases he
      exact ⟨rfl, pre, rfl⟩
    · intro s hs
      simp at hs

/-- Before a successful `initialize_work`, every other tool fails with the
not-initialized message, except `git_remote_set_url_from_env` with a missing
environment variable, which fails with the missing-variable message. -/
theorem dispatch_pre_init (w : World) (sys : Sys) (c : ToolCall)
    (hc : c ≠ ToolCall.initialize_work) (hst : sys.st = none) :
    (dispatch w sys c).1.isError = true ∧
    ((dispatch w sys c).1.content = [errLabel c ++ notInitializedMsg] ∨
      (c = ToolCall.git_remote_set_url_from_env ∧ envMissing w = true ∧
        (dispatch w sys c).1.content = [missingEnvMsg])) := by
  have hdir : getWorkspaceDir sys.st = Except.error notInitializedMsg := by
    rw [hst]
    rfl
  cases c with
  | initialize_work => exact absurd rfl hc
  | read_file name =>
    refine ⟨?_, Or.inl ?_⟩ <;>
      simp [dispatch, readFileBody, getWorkspaceFilePath, hdir, wrapResult, errLabel]
  | write_file name content =>
    refine ⟨?_, Or.inl ?_⟩ <;>
      simp [dispatch, writeFileBody, getWorkspaceFilePath, hdir, wrapResult, errLabel]
  | delete_file name =>
    refine ⟨?_, Or.inl ?_⟩ <;>
      simp [dispatch, deleteFileBody, getWorkspaceFilePath, hdir, wrapResult, errLabel]
  | list_dir =>
    refine ⟨?_, Or.inl ?_⟩ <;>
      simp [dispatch, listDirBody, hdir, wrapResult, errLabel]
  | git_status =>
    refine ⟨?_, Or.inl ?_⟩ <;>
      simp [dispatch, gitSimpleBody, runGit, hdir, wrapResult, errLabel]
  | git_diff staged file =>
    refine ⟨?_, Or.inl ?_⟩ <;>
      simp [dispatch, gitSimpleBody, runGit, hdir, wrapResult, errLabel]
  | git_add files =>
    refine ⟨?_, Or.inl ?_⟩ <;>
      simp [dispatch, gitAddBody, runGit, hdir, wrapResult, errLabel]
  | git_commit message =>
    refine ⟨?_, Or.inl ?_⟩ <;>
      simp [dispatch, gitSimpleBody, runGit, hdir, wrapResult, errLabel]
  | git_log limit =>
    refine ⟨?_, Or.inl ?_⟩ <;>
      simp [dispatch, gitSimpleBody, runGit, hdir, wrapResult, errLabel]
  | git_remote_set_url_from_env =>
    cases hr : getEnvNonEmpty w "PROJECT_REPO" with
    | none =>
      refine ⟨?_, Or.inr ⟨rfl, ?_, ?_⟩⟩ <;>
        simp [dispatch, hr, envMissing]
    | some repo =>
      cases ht : getEnvNonEmpty w "GITHUB_TOKEN" with
      | none =>
        refine ⟨?_, Or.inr ⟨rfl, ?_, ?_⟩⟩ <;>
          simp [dispatch, hr, ht, envMissing]
      | some token =>
        refine ⟨?_, Or.inl ?_⟩ <;>
          simp [dispatch, hr, ht, remoteBody, runGit, hdir, wrapResult, errLabel]
  | git_branch_delete branch force =>
    refine ⟨?_, Or.inl ?_⟩ <;>
      simp [dispatch, gitSimpleBody, runGit, hdir, wrapResult, errLabel]
  | git_branch_create_and_push branch startPoint =>
    refine ⟨?_, Or.inl ?_⟩ <;>
      simp [dispatch, branchCreateAndPushBody, runGit, hdir, wrapResult, errLabel]

theorem writeFileBody_st (sys : Sys) (n c : String) :
    (writeFileBody sys n c).2.st = sys.st := by
  unfold writeFileBody
  cases getWorkspaceFilePath sys.st n with
  | error e => rfl
  | ok p =>
    dsimp only
    cases sys.fs.writeFileOp p c with
    | error e => rfl
    | ok fs' => rfl

theorem deleteFileBody_st (sys : Sys) (n : String) :
    (deleteFileBody sys n).2.st = sys.st := by
  unfold deleteFileBody
  cases getWorkspaceFilePath sys.st n with
  | error e => rfl
  | ok p =>
    dsimp only
    cases sys.fs.unlinkOp p with
    | error e => rfl
    | ok fs' => rfl

/-! ## Association-list lookup lemmas for the filesystem operations -/

theorem hasDir_iff {fs : FS} {k : List String} :
    fs.hasDir k = true ↔ k ∈ fs.dirs := by
  simp [FS.hasDir, List.contains_eq_any_beq, List.any_eq_true, beq_iff_eq]

theorem isUnder_iff {k l : List String} : isUnder k l = true ↔ Lead k l := by
  simp only [isUnder, beq_iff_eq]
  exact lead_take

theorem isUnder_self_append (k t : List String) : isUnder k (k ++ t) = true :=
  isUnder_iff.mpr (lead_append k t)

theorem isUnder_false_iff {k l : List String} :
    isUnder k l = false ↔ ¬ Lead k l := by
  rw [← isUnder_iff]
  cases isUnder k l <;> simp

/-- Dropping the leading run recovers the tail. -/
theorem drop_len_append (k t : List String) : (k ++ t).drop k.length = t := by
  induction k with
  | nil => rfl
  | cons x xs ih => simp [ih]

theorem find?_filter_key (files : List (List String × String)) (q : List String)
    (P : List String → Bool) :
    (files.filter (fun e => !(P e.1))).find? (fun e => e.1 == q) =
      if P q then none else files.find? (fun e => e.1 == q) := by
  induction files with
  | nil => simp
  | cons e rest ih =>
    by_cases hk : e.1 = q
    · by_cases hp : P e.1 = true
      · have hpq : P q = true := hk ▸ hp
        rw [List.filter_cons_of_neg (by simp [hp]), ih, if_pos hpq, if_pos hpq]
      · have hpq : P q = false := hk ▸ (Bool.not_eq_true _ ▸ hp)
        rw [List.filter_cons_of_pos (by simp [Bool.not_eq_true] at hp; simp [hp]),
          List.find?_cons_of_pos _ (by simp [hk]),
          if_neg (by simp [hpq]), List.find?_cons_of_pos _ (by simp [hk])]
    · by_cases hp : P e.1 = true
      · rw [List.filter_cons_of_neg (by simp [hp]), ih]
        by_cases hq : P q = true
        · rw [if_pos hq, if_pos hq]
        · rw [if_neg hq, if_neg hq, List.find?_cons_of_neg _ (by simp [hk])]
      · rw [List.filter_cons_of_pos (by simp [Bool.not_eq_true] at hp; simp [hp]),
          List.find?_cons_of_neg _ (by simp [hk]), ih]
        by_cases hq : P q = true
        · rw [if_pos hq, if_pos hq]
        · rw [if_neg hq, if_neg hq, List.find?_cons_of_neg _ (by simp [hk])]

theorem find?_rebased (files : List (List String × String)) (src dst q : List String) :
    ((files.filterMap (fun e => if isUnder src e.1 then
        some (dst ++ e.1.drop src.length, e.2) else none)).find?
      (fun e => e.1 == q)).map (fun e => e.2) =
    (if isUnder dst q then
      (files.find? (fun e => e.1 == src ++ q.drop dst.length)).map (fun e => e.2)
    else none) := by
  induction files with
  | nil => simp
  | cons e rest ih =>
    by_cases hu : isUnder src e.1 = true
    · rw [List.filterMap_cons_some (by rw [if_pos hu])]
      obtain ⟨s, hs⟩ : ∃ s, e.1 = src ++ s := isUnder_iff.mp hu
      have hdrop_e : e.1.drop src.length = s := by rw [hs, drop_len_append]
      by_cases hq : isUnder dst q = true
      · obtain ⟨t, ht⟩ : ∃ t, q = dst ++ t := isUnder_iff.mp hq
        have hdrop_q : q.drop dst.length = t := by rw [ht, drop_len_append]
        by_cases hst : s = t
        · have h1 : (dst ++ e.1.drop src.length == q) = true := by
            simp [hdrop_e, hst, ht]
          have h2 : (e.1 == src ++ q.drop dst.length) = true := by
            simp [hs, hdrop_q, hst]
          simp [-List.find?_filterMap, h1, h2, hq]
        · have h1 : (dst ++ e.1.drop src.length == q) = false := by
            simp only [hdrop_e, ht, beq_eq_false_iff_ne, ne_eq,
              List.append_right_inj]
            exact hst
          have h2 : (e.1 == src ++ q.drop dst.length) = false := by
            simp only [hs, hdrop_q, beq_eq_false_iff_ne, ne_eq,
              List.append_right_inj]
            exact hst
          simp only [hq, if_pos] at ih
          simp [-List.find?_filterMap, h1, h2, hq, ih]
      · have h1 : (dst ++ e.1.drop src.length == q) = false := by
          rw [beq_eq_false_iff_ne]
          intro he
          rw [← he] at hq
          exact hq (isUnder_self_append dst _)
        simp only [hq] at ih
        simp [-List.find?_filterMap, h1, hq, ih]
    · rw [List.filterMap_cons_none (by rw [if_neg hu]), ih]
      by_cases hq : isUnder dst q = true
      · have h2 : (e.1 == src ++ q.drop dst.length) = false := by
          rw [beq_eq_false_iff_ne]
          intro he
          exact hu (isUnder_iff.mpr ⟨q.drop dst.length, he⟩)
        simp [h2, hq]
      · simp [hq]

theorem splitPath_root_val : splitPath WORKSPACE_ROOT = ["workspace"] := by decide

theorem existsAt_iff {fs : FS} {k : List String} :
    fs.existsAt k = true ↔
      (fs.fileContent k).isSome = true ∨ fs.hasDir k = true := by
  simp [FS.existsAt]

/-- Lookup behaviour of a successful copy. -/
theorem cpOp_ok {fs fs' : FS} {srcP dstP : String}
    (h : fs.cpOp srcP dstP = Except.ok fs') :
    fs.existsAt (splitPath srcP) = true ∧
    (∀ q, fs'.fileContent q =
      if isUnder (splitPath dstP) q &&
         fs.existsAt (splitPath srcP ++ q.drop (splitPath dstP).length)
      then fs.fileContent (splitPath srcP ++ q.drop (splitPath dstP).length)
      else fs.fileContent q) ∧
    (∀ q, fs'.hasDir q =
      (fs.hasDir q ||
        (isUnder (splitPath dstP) q &&
          fs.hasDir (splitPath srcP ++ q.drop (splitPath dstP).length)))) := by
  unfold FS.cpOp at h
  simp only [] at h
  split at h
  · simp at h
  · rename_i hex
    have hexists : fs.existsAt (splitPath srcP) = true := by
      revert hex
      cases fs.existsAt (splitPath srcP) <;> simp
    injection h with h'
    subst h'
    refine ⟨hexists, ?_, ?_⟩
    · intro q
      unfold FS.fileContent
      dsimp only
      rw [List.find?_append, find?_filter_key fs.files q
        (fun k => isUnder (splitPath dstP) k &&
          fs.existsAt (splitPath srcP ++ k.drop (splitPath dstP).length))]
      by_cases hC : (isUnder (splitPath dstP) q &&
          fs.existsAt (splitPath srcP ++ q.drop (splitPath dstP).length)) = true
      · have hC' := hC
        rw [Bool.and_eq_true] at hC'
        rw [if_pos hC, if_pos hC]
        simp only [Option.none_or]
        rw [find?_rebased fs.files (splitPath srcP) (splitPath dstP) q,
          if_pos hC'.1]
      · rw [if_neg hC, if_neg hC]
        cases hf : fs.files.find? (fun e => e.1 == q) with
        | some x => simp
        | none =>
          simp only [Option.none_or]
          rw [find?_rebased fs.files (splitPath srcP) (splitPath dstP) q]
          by_cases hq : isUnder (splitPath dstP) q = true
          · rw [if_pos hq]
            have hnotex : fs.existsAt
                (splitPath srcP ++ q.drop (splitPath dstP).length) = false := by
              revert hC
              rw [hq]
              cases fs.existsAt (splitPath srcP ++ q.drop (splitPath dstP).length) <;>
                simp
            have hfc : fs.fileContent
                (splitPath srcP ++ q.drop (splitPath dstP).length) = none := by
              revert hnotex
              unfold FS.existsAt
              cases hcc : fs.fileContent
                  (splitPath srcP ++ q.drop (splitPath dstP).length) <;> simp
            unfold FS.fileContent at hfc
            cases hg : fs.files.find?
                (fun e => e.1 == splitPath srcP ++ q.drop (splitPath dstP).length) with
            | some y => rw [hg] at hfc; simp at hfc
            | none => simp [hg]
          · rw [if_neg hq]
            rfl
    · intro q
      rw [Bool.eq_iff_iff, hasDir_iff]
      simp only [Bool.or_eq_true, Bool.and_eq_true, hasDir_iff]
      rw [List.mem_append, List.mem_filterMap]
      constructor
      · rintro (hx | ⟨d, hd, hdx⟩)
        · exact Or.inl hx
        · right
          by_cases hud : isUnder (splitPath srcP) d = true
          · rw [if_pos hud] at hdx
            injection hdx with hdx
            obtain ⟨s, hs⟩ := isUnder_iff.mp hud
            have hds : d.drop (splitPath srcP).length = s := by
              rw [hs, drop_len_append]
            refine ⟨?_, ?_⟩
            · rw [← hdx, hds]
              exact isUnder_self_append _ _
            · rw [← hdx, hds, drop_len_append, ← hs]
              exact hd
          · rw [if_neg hud] at hdx
            simp at hdx
      · rintro (hx | ⟨hq, hmem⟩)
        · exact Or.inl hx
        · right
          obtain ⟨t0, ht0⟩ := isUnder_iff.mp hq
          have hdrop : q.drop (splitPath dstP).length = t0 := by
            rw [ht0, drop_len_append]
          refine ⟨splitPath srcP ++ q.drop (splitPath dstP).length, hmem, ?_⟩
          rw [if_pos (isUnder_self_append _ _), drop_len_append, hdrop, ← ht0]

/-- Lookup behaviour of recursive forced removal. -/
theorem rmOp_spec (fs : FS) (p : String) :
    (∀ q, (fs.rmOp p).fileContent q =
      if isUnder (splitPath p) q then none else fs.fileContent q) ∧
    (∀ q, (fs.rmOp p).hasDir q =
      (!(isUnder (splitPath p) q) && fs.hasDir q)) := by
  constructor
  · intro q
    unfold FS.rmOp FS.fileContent
    dsimp only
    rw [show (fun (e : List String × String) => !(isUnder (splitPath p) e.1)) =
      (fun e => !((fun k => isUnder (splitPath p) k) e.1)) from rfl]
    rw [find?_filter_key fs.files q (fun k => isUnder (splitPath p) k)]
    by_cases hq : isUnder (splitPath p) q = true
    · rw [if_pos hq, if_pos hq]
      rfl
    · rw [if_neg hq, if_neg hq]
  · intro q
    rw [Bool.eq_iff_iff, hasDir_iff]
    unfold FS.rmOp
    dsimp only
    rw [List.mem_filter]
    simp only [Bool.and_eq_true, Bool.not_eq_true']
    rw [hasDir_iff]
    constructor
    · rintro ⟨hm, hni⟩
      exact ⟨hni, hm⟩
    · rintro ⟨hni, hm⟩
      exact ⟨hm, hni⟩

/-- A successful plain `mkdir`. -/
theorem mkdirOp_ok {fs fs' : FS} {p : String}
    (h : fs.mkdirOp p = Except.ok fs') :
    fs.existsAt (splitPath p) = false ∧
    fs'.files = fs.files ∧
    (∀ q, fs'.hasDir q = (fs.hasDir q || q == splitPath p)) := by
  unfold FS.mkdirOp at h
  simp only [] at h
  split at h
  · simp at h
  · rename_i hex
    split at h
    · simp at h
    · injection h with h'
      subst h'
      refine ⟨by revert hex; cases fs.existsAt (splitPath p) <;> simp, rfl, ?_⟩
      intro q
      rw [Bool.eq_iff_iff, hasDir_iff]
      simp only [Bool.or_eq_true, beq_iff_eq, hasDir_iff]
      rw [List.mem_append]
      simp

/-- A successful recursive `mkdir` of the workspace root. -/
theorem mkdirPOp_root_ok {fs fs' : FS}
    (h : fs.mkdirPOp WORKSPACE_ROOT = Except.ok fs') :
    fs.fileContent ["workspace"] = none ∧
    fs'.files = fs.files ∧
    (∀ q, fs'.hasDir q = (fs.hasDir q || q == ["workspace"])) := by
  unfold FS.mkdirPOp at h
  rw [splitPath_root_val] at h
  simp only [] at h
  split at h
  · simp at h
  · rename_i hfc
    injection h with h'
    subst h'
    have hnone : fs.fileContent ["workspace"] = none := by
      revert hfc
      cases fs.fileContent ["workspace"] <;> simp
    refine ⟨hnone, rfl, ?_⟩
    intro q
    rw [Bool.eq_iff_iff, hasDir_iff]
    simp only [Bool.or_eq_true, beq_iff_eq, hasDir_iff]
    have hform : (((List.range (["workspace"] : List String).length).map
        (fun i => (["workspace"] : List String).take (i + 1))).filter
        (fun d => !fs.dirs.contains d)) =
        if fs.dirs.contains ["workspace"] = true then [] else [["workspace"]] := by
      by_cases hc : fs.dirs.contains ["workspace"] = true
      · rw [if_pos hc]
        simp [List.range_succ]
        exact hasDir_iff.mp hc
      · rw [if_neg hc]
        simp [List.range_succ]
        intro hmem
        have h2 : fs.dirs.contains ["workspace"] = true := hasDir_iff.mpr hmem
        rw [h2] at hc
        simp at hc
    show q ∈ fs.dirs ++ _ ↔ _
    rw [hform, List.mem_append]
    by_cases hc : fs.dirs.contains ["workspace"] = true
    · rw [if_pos hc]
      constructor
      · rintro (hm | hm)
        · exact Or.inl hm
        · simp at hm
      · rintro (hm | rfl)
        · exact Or.inl hm
        · exact Or.inl (hasDir_iff.mp hc)
    · rw [if_neg hc]
      simp only [List.mem_singleton]

theorem lead_single_iff {a : String} {l : List String} :
    Lead [a] l ↔ ∃ t, l = a :: t := Iff.rfl

theorem lead_two_iff {a b x y : String} {l : List String} :
    Lead [a, b] (x :: y :: l) ↔ a = x ∧ b = y := by
  rw [lead_cons_cons, lead_cons_cons]
  simp [Lead.nil]

theorem lead_three_iff {a b c x y : String} {l : List String} :
    Lead [a, b, c] (x :: y :: l) ↔ a = x ∧ b = y ∧ Lead [c] l := by
  rw [lead_cons_cons, lead_cons_cons]

theorem lead_cons_single_iff {a x : String} {l : List String} :
    Lead [a] (x :: l) ↔ a = x := by
  rw [lead_cons_cons]
  simp [Lead.nil]

theorem dst_segs_clean {u m : String} (hu : cleanSeg u) (hm : cleanSeg m) :
    ∀ x ∈ (["workspace", u, m] : List String), cleanSeg x := by
  intro x hx
  simp only [List.mem_cons, List.not_mem_nil, or_false] at hx
  rcases hx with rfl | rfl | rfl
  · exact ws_cleanSeg
  · exact hu
  · exact hm

theorem moveOne_paths {u m : String} (hu : cleanSeg u) (hm : cleanSeg m) :
    splitPath (pathJoin WORKSPACE_ROOT m) = ["workspace", m] ∧
    splitPath (pathJoin (pathJoin WORKSPACE_ROOT u) m) = ["workspace", u, m] := by
  constructor
  · rw [pathJoin_root m hm]
    exact splitPath_clean (ws_f_clean hm)
  · have hfolder := pathJoin_root u hu
    rw [hfolder, pathJoin_renderAbs m (ws_f_clean hu) (by simp) hm]
    exact splitPath_clean (dst_segs_clean hu hm)

/-- Combined lookup behaviour of one successful relocation step. -/
theorem moveOne_ok_lookup {fs fs' : FS} {u m : String}
    (hu : cleanSeg u) (hm : cleanSeg m)
    (hstep : moveOne fs (pathJoin WORKSPACE_ROOT u) m = Except.ok fs') :
    (∀ q, fs'.fileContent q =
      if isUnder ["workspace", m] q then none
      else if isUnder ["workspace", u, m] q &&
          fs.existsAt (["workspace", m] ++
            q.drop (["workspace", u, m] : List String).length)
        then fs.fileContent (["workspace", m] ++
          q.drop (["workspace", u, m] : List String).length)
        else fs.fileContent q) ∧
    (∀ q, (q ∈ fs'.dirs ↔
      (¬ Lead ["workspace", m] q ∧
        (q ∈ fs.dirs ∨ (Lead ["workspace", u, m] q ∧
          (["workspace", m] ++
            q.drop (["workspace", u, m] : List String).length) ∈ fs.dirs))))) := by
  obtain ⟨hsrc, hdst⟩ := moveOne_paths hu hm
  unfold moveOne at hstep
  simp only [] at hstep
  cases hcp : fs.cpOp (pathJoin WORKSPACE_ROOT m)
      (pathJoin (pathJoin WORKSPACE_ROOT u) m) with
  | error e =>
    rw [hcp] at hstep
    simp at hstep
  | ok fsc =>
    rw [hcp] at hstep
    injection hstep with hstep
    subst hstep
    obtain ⟨hex, hcpf, hcpd⟩ := cpOp_ok hcp
    rw [hsrc, hdst] at hcpf hcpd
    obtain ⟨hrmf, hrmd⟩ := rmOp_spec fsc (pathJoin WORKSPACE_ROOT m)
    rw [hsrc] at hrmf hrmd
    constructor
    · intro q
      rw [hrmf q]
      by_cases h1 : isUnder ["workspace", m] q = true
      · rw [if_pos h1, if_pos h1]
      · rw [if_neg h1, if_neg h1, hcpf q]
    · intro q
      rw [← hasDir_iff, hrmd q, Bool.and_eq_true, Bool.not_eq_true',
        isUnder_false_iff, hcpd q]
      simp only [Bool.or_eq_true, Bool.and_eq_true, hasDir_iff, isUnder_iff]

/-- One successful relocation step extends the invariant by the moved name. -/
theorem moveOne_inv {fs2 fs fs' : FS} {u m : String} {P : List String}
    (hu : cleanSeg u) (hm : cleanSeg m) (hmu : m ≠ u) (hmP : m ∉ P)
    (huP : u ∉ P)
    (hempty : NothingUnderFolder fs2 u)
    (hinv : MovedInv fs2 u P fs)
    (hstep : moveOne fs (pathJoin WORKSPACE_ROOT u) m = Except.ok fs') :
    MovedInv fs2 u (P ++ [m]) fs' := by
  obtain ⟨hf, hd⟩ := moveOne_ok_lookup hu hm hstep
  obtain ⟨hinv1, hinv2, hinv3, hinv4⟩ := hinv
  have hdrop3 : ∀ (a b c : String) (l : List String),
      List.drop (["workspace", u, m] : List String).length (a :: b :: c :: l) = l :=
    fun _ _ _ _ => rfl
  have huntA : ∀ rest : List String, ∀ n' ∈ P,
      ¬Lead ["workspace", n'] ("workspace" :: m :: rest) ∧
        ¬Lead ["workspace", u, n'] ("workspace" :: m :: rest) := by
    intro rest n' hn'
    constructor
    · intro hL
      exact hmP ((lead_two_iff.mp hL).2 ▸ hn')
    · intro hL
      exact hmu ((lead_three_iff.mp hL).2.1).symm
  have huntB : ∀ rest : List String, ∀ n' ∈ P,
      ¬Lead ["workspace", n'] ("workspace" :: u :: m :: rest) ∧
        ¬Lead ["workspace", u, n'] ("workspace" :: u :: m :: rest) := by
    intro rest n' hn'
    constructor
    · intro hL
      exact huP ((lead_two_iff.mp hL).2 ▸ hn')
    · intro hL
      exact hmP ((lead_cons_single_iff.mp (lead_three_iff.mp hL).2.2) ▸ hn')
  refine ⟨?_, ?_, ?_, ?_⟩
  · intro n hn rest
    rw [hf]
    rcases List.mem_append.mp hn with hnP | hnm
    · have hne : m ≠ n := fun he => hmP (he ▸ hnP)
      have h1 : ¬ Lead ["workspace", m] ("workspace" :: u :: n :: rest) :=
        fun hL => hmu (lead_two_iff.mp hL).2
      have h2 : isUnder ["workspace", u, m]
          ("workspace" :: u :: n :: rest) = false :=
        isUnder_false_iff.mpr
          (fun hL => hne (lead_cons_single_iff.mp (lead_three_iff.mp hL).2.2))
      rw [if_neg (by rw [isUnder_iff]; exact h1), if_neg (by simp [h2])]
      exact hinv1 n hnP rest
    · simp only [List.mem_singleton] at hnm
      subst hnm
      have h1 : ¬ (isUnder ["workspace", n]
          ("workspace" :: u :: n :: rest) = true) := by
        rw [isUnder_iff]
        intro hL
        exact hmu (lead_two_iff.mp hL).2
      rw [if_neg h1, hdrop3]
      have h2 : isUnder ["workspace", u, n]
          ("workspace" :: u :: n :: rest) = true := by
        rw [isUnder_iff]
        exact ⟨rest, rfl⟩
      have hsrcfacts := hinv4 ("workspace" :: n :: rest) (huntA rest)
      by_cases hex : fs.existsAt ("workspace" :: n :: rest) = true
      · rw [if_pos (by simp [h2, hex])]
        exact hsrcfacts.1
      · rw [if_neg (by simp [hex])]
        have hq4 := hinv4 ("workspace" :: u :: n :: rest) (huntB rest)
        rw [hq4.1]
        have hl := hempty (n :: rest) (by simp)
        rw [show ("workspace" :: u :: n :: rest) =
          (["workspace", u] ++ n :: rest) from rfl, hl.1]
        have hnone : fs.fileContent ("workspace" :: n :: rest) = none := by
          revert hex
          unfold FS.existsAt
          cases hcc : fs.fileContent ("workspace" :: n :: rest) <;> simp [hcc]
        rw [← hsrcfacts.1, hnone]
  · intro n hn rest
    rw [hd]
    rcases List.mem_append.mp hn with hnP | hnm
    · have hne : m ≠ n := fun he => hmP (he ▸ hnP)
      have hnL1 : ¬ Lead ["workspace", m] ("workspace" :: u :: n :: rest) :=
        fun hL => hmu (lead_two_iff.mp hL).2
      have hnL3 : ¬ Lead ["workspace", u, m] ("workspace" :: u :: n :: rest) :=
        fun hL => hne (lead_cons_single_iff.mp (lead_three_iff.mp hL).2.2)
      constructor
      · rintro ⟨_, hmem | ⟨hL3, _⟩⟩
        · exact (hinv2 n hnP rest).mp hmem
        · exact absurd hL3 hnL3
      · intro hmem
        exact ⟨hnL1, Or.inl ((hinv2 n hnP rest).mpr hmem)⟩
    · simp only [List.mem_singleton] at hnm
      subst hnm
      have hnL1 : ¬ Lead ["workspace", n] ("workspace" :: u :: n :: rest) :=
        fun hL => hmu (lead_two_iff.mp hL).2
      rw [hdrop3]
      constructor
      · rintro ⟨_, hmem | ⟨_, hmem⟩⟩
        · exact absurd ((hinv4 _ (huntB rest)).2.mp hmem)
            (hempty (n :: rest) (by simp)).2
        · exact ((hinv4 _ (huntA rest)).2).mp hmem
      · intro hmem
        exact ⟨hnL1, Or.inr ⟨⟨rest, rfl⟩, ((hinv4 _ (huntA rest)).2).mpr hmem⟩⟩
  · intro n hn rest
    rcases List.mem_append.mp hn with hnP | hnm
    · have hnL1 : ¬ Lead ["workspace", m] ("workspace" :: n :: rest) :=
        fun hL => hmP ((lead_two_iff.mp hL).2 ▸ hnP)
      have hnL3 : ¬ Lead ["workspace", u, m] ("workspace" :: n :: rest) :=
        fun hL => huP ((lead_three_iff.mp hL).2.1 ▸ hnP)
      constructor
      · rw [hf, if_neg (by rw [isUnder_iff]; exact hnL1),
          if_neg (by simp [isUnder_false_iff.mpr hnL3])]
        exact (hinv3 n hnP rest).1
      · rw [hd]
        rintro ⟨_, hmem | ⟨hL3, _⟩⟩
        · exact (hinv3 n hnP rest).2 hmem
        · exact hnL3 hL3
    · simp only [List.mem_singleton] at hnm
      subst hnm
      have hL1 : Lead ["workspace", n] ("workspace" :: n :: rest) := ⟨rest, rfl⟩
      constructor
      · rw [hf, if_pos (isUnder_iff.mpr hL1)]
      · rw [hd]
        rintro ⟨hno, _⟩
        exact hno hL1
  · intro q hq
    have hqP : ∀ n' ∈ P,
        ¬Lead ["workspace", n'] q ∧ ¬Lead ["workspace", u, n'] q :=
      fun n' hn' => hq n' (List.mem_append.mpr (Or.inl hn'))
    have hqm := hq m (List.mem_append.mpr (Or.inr (by simp)))
    constructor
    · rw [hf, if_neg (by rw [isUnder_iff]; exact hqm.1),
        if_neg (by simp [isUnder_false_iff.mpr hqm.2])]
      exact (hinv4 q hqP).1
    · rw [hd]
      constructor
      · rintro ⟨_, hmem | ⟨hL3, _⟩⟩
        · exact (hinv4 q hqP).2.mp hmem
        · exact absurd hL3 hqm.2
      · intro hmem
        exact ⟨hqm.1, Or.inl ((hinv4 q hqP).2.mpr hmem)⟩

/-- Running the relocation loop to success moves exactly the listed names
other than the folder name itself. -/
theorem moveLoop_inv {fs2 : FS} {u : String} (hu : cleanSeg u)
    (hempty : NothingUnderFolder fs2 u) :
    ∀ (names : List String) (P : List String) (fs fs' : FS),
    (∀ n ∈ names, cleanSeg n) → u ∉ P →
    MovedInv fs2 u P fs →
    moveLoop fs u (pathJoin WORKSPACE_ROOT u) names = Except.ok fs' →
    ∃ P', (∀ n, n ∈ P' ↔ (n ∈ P ∨ (n ∈ names ∧ n ≠ u))) ∧ u ∉ P' ∧
      MovedInv fs2 u P' fs' := by
  intro names
  induction names with
  | nil =>
    intro P fs fs' _ huP hinv hloop
    simp only [moveLoop] at hloop
    injection hloop with h
    subst h
    exact ⟨P, fun n => by simp, huP, hinv⟩
  | cons m rest ih =>
    intro P fs fs' hclean huP hinv hloop
    by_cases hmu : m = u
    · simp only [moveLoop, if_pos hmu] at hloop
      obtain ⟨P', hP', huP', hinv'⟩ :=
        ih P fs fs' (fun n hn => hclean n (by simp [hn])) huP hinv hloop
      refine ⟨P', ?_, huP', hinv'⟩
      intro n
      rw [hP' n]
      subst hmu
      constructor
      · rintro (hmem | ⟨hmem, hne⟩)
        · exact Or.inl hmem
        · exact Or.inr ⟨by simp [hmem], hne⟩
      · rintro (hmem | ⟨hmem, hne⟩)
        · exact Or.inl hmem
        · rcases List.mem_cons.mp hmem with rfl | h
          · exact absurd rfl hne
          · exact Or.inr ⟨h, hne⟩
    · have hm : cleanSeg m := hclean m (by simp)
      by_cases hmP : m ∈ P
      · exfalso
        have h3 := hinv.2.2.1 m hmP []
        obtain ⟨hsrc, _⟩ := moveOne_paths hu hm
        have hdirf : fs.hasDir ["workspace", m] = false := by
          cases hh : fs.hasDir ["workspace", m] with
          | true => exact absurd (hasDir_iff.mp hh) h3.2
          | false => rfl
        have hexf : fs.existsAt ["workspace", m] = false := by
          unfold FS.existsAt
          rw [h3.1, hdirf]
          rfl
        have hmo : ∃ e, moveOne fs (pathJoin WORKSPACE_ROOT u) m =
            Except.error e := by
          unfold moveOne FS.cpOp
          simp only [hsrc, hexf, Bool.not_false, if_true]
          exact ⟨_, rfl⟩
        obtain ⟨e, hmo⟩ := hmo
        simp only [moveLoop, if_neg hmu, hmo] at hloop
        simp at hloop
      · simp only [moveLoop, if_neg hmu] at hloop
        cases hmo : moveOne fs (pathJoin WORKSPACE_ROOT u) m with
        | error e =>
          rw [hmo] at hloop
          simp at hloop
        | ok fsn =>
          rw [hmo] at hloop
          have hinv' := moveOne_inv hu hm hmu hmP huP hempty hinv hmo
          have huP' : u ∉ P ++ [m] := by
            intro hmem
            rcases List.mem_append.mp hmem with h | h
            · exact huP h
            · simp only [List.mem_singleton] at h
              exact hmu h.symm
          obtain ⟨P', hP', huPf, hinvf⟩ :=
            ih (P ++ [m]) fsn fs' (fun n hn => hclean n (by simp [hn]))
              huP' hinv' hloop
          refine ⟨P', ?_, huPf, hinvf⟩
          intro n
          rw [hP' n]
          constructor
          · rintro (hmem | hmem)
            · rcases List.mem_append.mp hmem with h | h
              · exact Or.inl h
              · simp only [List.mem_singleton] at h
                subst h
                exact Or.inr ⟨by simp, hmu⟩
            · exact Or.inr ⟨by simp [hmem.1], hmem.2⟩
          · rintro (hmem | ⟨hmem, hne⟩)
            · exact Or.inl (List.mem_append.mpr (Or.inl hmem))
            · rcases List.mem_cons.mp hmem with rfl | h
              · exact Or.inl (List.mem_append.mpr (Or.inr (by simp)))
              · exact Or.inr ⟨h, hne⟩

theorem childName_eq_some {k l : List String} {n : String} :
    childName k l = some n ↔ l = k ++ [n] := by
  unfold childName
  constructor
  · intro h
    split at h
    · rename_i htake
      cases hd : l.drop k.length with
      | nil => rw [hd] at h; simp at h
      | cons a t =>
        cases t with
        | nil =>
          rw [hd] at h
          simp only [Option.some.injEq] at h
          subst h
          conv_lhs => rw [← List.take_append_drop k.length l, htake, hd]
        | cons b t' => rw [hd] at h; simp at h
    · simp at h
  · intro h
    subst h
    rw [if_pos (lead_take.mpr (lead_append k [n])), drop_len_append]

theorem mem_childNames {fs : FS} {k : List String} {n : String} :
    n ∈ fs.childNames k ↔
      ((k ++ [n]) ∈ fs.files.map (fun e => e.1) ∨ (k ++ [n]) ∈ fs.dirs) := by
  unfold FS.childNames FS.childEntries
  rw [List.map_append]
  simp only [List.mem_append, List.mem_map, List.mem_filterMap,
    Option.map_eq_some']
  constructor
  · rintro (⟨a, ⟨l, ⟨e, he, rfl⟩, n', hcn, rfl⟩, rfl⟩ |
      ⟨a, ⟨l, hl, n', hcn, rfl⟩, rfl⟩)
    · exact Or.inl ⟨e, he, childName_eq_some.mp hcn⟩
    · rw [childName_eq_some.mp hcn] at hl
      exact Or.inr hl
  · rintro (⟨e, he, hke⟩ | hmem)
    · exact Or.inl ⟨(n, false), ⟨e.1, ⟨e, he, rfl⟩, n,
        by rw [hke, childName_eq_some.mpr rfl], rfl⟩, rfl⟩
    · exact Or.inr ⟨(n, true), ⟨k ++ [n], hmem, n,
        childName_eq_some.mpr rfl, rfl⟩, rfl⟩

theorem fileContent_eq_of_files {fs fs' : FS} (h : fs'.files = fs.files) :
    ∀ q, fs'.fileContent q = fs.fileContent q := by
  intro q
  unfold FS.fileContent
  rw [h]

theorem lead_two_single {a b x : String} : ¬ Lead [a, b] [x] := by
  rw [lead_cons_cons]
  rintro ⟨_, h⟩
  rw [lead_nil_right] at h
  simp at h

theorem lead_three_two {a b c x y : String} : ¬ Lead [a, b, c] [x, y] := by
  rw [lead_cons_cons]
  rintro ⟨_, h⟩
  exact lead_two_single h

theorem lead_two_nil {a b : String} : ¬ Lead [a, b] [] := by
  rw [lead_nil_right]
  simp

theorem lead_three_nil {a b c : String} : ¬ Lead [a, b, c] [] := by
  rw [lead_nil_right]
  simp

theorem lead_three_single {a b c x : String} : ¬ Lead [a, b, c] [x] := by
  rw [lead_cons_cons]
  rintro ⟨_, h⟩
  exact lead_two_nil h

/-- Full characterization of a successful `initialize_work` body run on a
well-formed filesystem: the identifier is recorded, the fresh folder exists,
and every pre-existing immediate child of the root has been moved under the
fresh folder, name preserved, recursively. -/
theorem initializeBody_ok_spec {w : World} {sys : Sys} {t : String} {sys' : Sys}
    (hwf : FS.wf sys.fs) (hu : cleanSeg w.uuid)
    (hrun : initializeBody w sys = (Except.ok t, sys')) :
    sys'.st = some w.uuid ∧
    sys'.fs.fileContent ["workspace"] = none ∧
    ["workspace"] ∈ sys'.fs.dirs ∧
    ["workspace", w.uuid] ∈ sys'.fs.dirs ∧
    (∀ n ∈ sys.fs.childNames ["workspace"],
      n ≠ w.uuid ∧
      (∀ rest, sys'.fs.fileContent ("workspace" :: w.uuid :: n :: rest) =
        sys.fs.fileContent ("workspace" :: n :: rest)) ∧
      (∀ rest, (("workspace" :: w.uuid :: n :: rest) ∈ sys'.fs.dirs ↔
        ("workspace" :: n :: rest) ∈ sys.fs.dirs)) ∧
      (∀ rest, sys'.fs.fileContent ("workspace" :: n :: rest) = none ∧
        ("workspace" :: n :: rest) ∉ sys'.fs.dirs)) := by
  unfold initializeBody at hrun
  simp only [] at hrun
  cases hm1 : sys.fs.mkdirPOp WORKSPACE_ROOT with
  | error e => rw [hm1] at hrun; simp at hrun
  | ok fs1 =>
    rw [hm1] at hrun
    dsimp only at hrun
    cases hm2 : fs1.mkdirOp (pathJoin WORKSPACE_ROOT w.uuid) with
    | error e => rw [hm2] at hrun; simp at hrun
    | ok fs2 =>
      rw [hm2] at hrun
      dsimp only at hrun
      cases hm3 : fs2.readdirOp WORKSPACE_ROOT with
      | error e => rw [hm3] at hrun; simp at hrun
      | ok entries =>
        rw [hm3] at hrun
        dsimp only at hrun
        cases hm4 : moveLoop fs2 w.uuid (pathJoin WORKSPACE_ROOT w.uuid)
            (entries.map (fun e => e.1)) with
        | error ef => rw [hm4] at hrun; simp at hrun
        | ok fs3 =>
          rw [hm4] at hrun
          dsimp only at hrun
          have hsys' : sys' = { st := some w.uuid, fs := fs3 } :=
            (congrArg Prod.snd hrun).symm
          subst hsys'
          have hfsplit : splitPath (pathJoin WORKSPACE_ROOT w.uuid) =
              ["workspace", w.uuid] := by
            rw [pathJoin_root w.uuid hu]
            exact splitPath_clean (ws_f_clean hu)
          obtain ⟨hPnone, hfiles1, hdirs1⟩ := mkdirPOp_root_ok hm1
          obtain ⟨hex2, hfiles2, hdirs2⟩ := mkdirOp_ok hm2
          rw [hfsplit] at hex2
          have hdirs2' : ∀ q, fs2.hasDir q =
              (fs1.hasDir q || q == ["workspace", w.uuid]) := by
            intro q
            rw [hdirs2 q, hfsplit]
          have hW1 : fs1.hasDir ["workspace"] = true := by
            rw [hdirs1]
            simp
          have hW2 : fs2.hasDir ["workspace"] = true := by
            rw [hdirs2']
            simp [hW1]
          have hentries : entries = fs2.childEntries ["workspace"] := by
            unfold FS.readdirOp at hm3
            simp only [splitPath_root_val] at hm3
            rw [if_neg (by simp [hW2])] at hm3
            injection hm3 with h
            exact h.symm
          have hdirs2mem : ∀ q, q ∈ fs2.dirs ↔
              (q ∈ sys.fs.dirs ∨ q = ["workspace"] ∨
                q = ["workspace", w.uuid]) := by
            intro q
            rw [← hasDir_iff, hdirs2' q]
            simp only [Bool.or_eq_true, beq_iff_eq]
            rw [hdirs1 q]
            simp only [Bool.or_eq_true, beq_iff_eq, hasDir_iff]
            tauto
          have hfc1 : ∀ q, fs1.fileContent q = sys.fs.fileContent q :=
            fileContent_eq_of_files hfiles1
          have hfc2 : ∀ q, fs2.fileContent q = fs1.fileContent q :=
            fileContent_eq_of_files hfiles2
          have huNot : w.uuid ∉ sys.fs.childNames ["workspace"] := by
            intro hmem
            rcases mem_childNames.mp hmem with hf | hd
            · obtain ⟨e, he, hke⟩ := List.mem_map.mp hf
              have hsome : (fs1.fileContent ["workspace", w.uuid]).isSome = true := by
                rw [hfc1]
                unfold FS.fileContent
                rw [Option.isSome_map']
                exact List.find?_isSome.mpr ⟨e, he, by simp [hke]⟩
              have hexT : fs1.existsAt ["workspace", w.uuid] = true := by
                unfold FS.existsAt
                simp [hsome]
              simp [hexT] at hex2
            · have hd2 : sys.fs.hasDir ["workspace", w.uuid] = true :=
                hasDir_iff.mpr hd
              have hhd : fs1.hasDir ["workspace", w.uuid] = true := by
                rw [hdirs1]
                simp [hd2]
              have hexT : fs1.existsAt ["workspace", w.uuid] = true := by
                unfold FS.existsAt
                simp [hhd]
              simp [hexT] at hex2
          have hkey_dirs : ∀ rest : List String, rest ≠ [] →
              (["workspace", w.uuid] ++ rest) ∉ sys.fs.dirs := by
            intro rest hrest hm
            have hlen : 2 < (["workspace", w.uuid] ++ rest).length := by
              rw [List.length_append]
              have := List.length_pos.mpr hrest
              simp only [List.length_cons, List.length_nil]
              omega
            have hclosed := hwf.2 _ (Or.inr hm) 2 (by omega) hlen
            have h2l : (["workspace", w.uuid] ++ rest).take 2 =
                ["workspace", w.uuid] := by
              exact lead_take.mpr (lead_append ["workspace", w.uuid] rest)
            rw [h2l] at hclosed
            have hhd : fs1.hasDir ["workspace", w.uuid] = true := by
              rw [hdirs1]
              simp [hasDir_iff.mpr hclosed]
            have hexT : fs1.existsAt ["workspace", w.uuid] = true := by
              unfold FS.existsAt
              simp [hhd]
            simp [hexT] at hex2
          have hempty : NothingUnderFolder fs2 w.uuid := by
            intro rest hrest
            constructor
            · rw [hfc2, hfc1]
              cases hcc : sys.fs.fileContent (["workspace", w.uuid] ++ rest) with
              | none => rfl
              | some c =>
                exfalso
                have hkey : (["workspace", w.uuid] ++ rest) ∈
                    sys.fs.files.map (fun e => e.1) := by
                  unfold FS.fileContent at hcc
                  cases hfind : sys.fs.files.find?
                      (fun x => x.1 == ["workspace", w.uuid] ++ rest) with
                  | none => rw [hfind] at hcc; simp at hcc
                  | some e =>
                    have hmem := List.mem_of_find?_eq_some hfind
                    have hpe := List.find?_some hfind
                    simp only [beq_iff_eq] at hpe
                    exact List.mem_map.mpr ⟨e, hmem, hpe⟩
                have hlen : 2 < (["workspace", w.uuid] ++ rest).length := by
                  rw [List.length_append]
                  have := List.length_pos.mpr hrest
                  simp only [List.length_cons, List.length_nil]
                  omega
                have hclosed := hwf.2 _ (Or.inl hkey) 2 (by omega) hlen
                have h2l : (["workspace", w.uuid] ++ rest).take 2 =
                    ["workspace", w.uuid] := by
                  exact lead_take.mpr (lead_append ["workspace", w.uuid] rest)
                rw [h2l] at hclosed
                have hhd : fs1.hasDir ["workspace", w.uuid] = true := by
                  rw [hdirs1]
                  simp [hasDir_iff.mpr hclosed]
                have hexT : fs1.existsAt ["workspace", w.uuid] = true := by
                  unfold FS.existsAt
                  simp [hhd]
                simp [hexT] at hex2
            · intro hmem
              rcases (hdirs2mem _).mp hmem with hm | hm | hm
              · exact hkey_dirs rest hrest hm
              · have := congrArg List.length hm
                rw [List.length_append] at this
                simp only [List.length_cons, List.length_nil] at this
                omega
              · have := congrArg List.length hm
                rw [List.length_append] at this
                simp only [List.length_cons, List.length_nil] at this
                have hr0 : rest.length = 0 := by omega
                exact hrest (List.length_eq_zero.mp hr0)
          have hbase : MovedInv fs2 w.uuid [] fs2 :=
            ⟨fun n hn => by simp at hn, fun n hn => by simp at hn,
              fun n hn => by simp at hn, fun q _ => ⟨rfl, Iff.rfl⟩⟩
          have hnamesclean : ∀ n ∈ entries.map (fun e => e.1), cleanSeg n := by
            rw [hentries]
            intro n hn
            have hn' : n ∈ fs2.childNames ["workspace"] := hn
            rcases mem_childNames.mp hn' with hf | hd
            · rw [hfiles2, hfiles1] at hf
              obtain ⟨e, he, hke⟩ := List.mem_map.mp hf
              exact hwf.1.1 e he n (by rw [hke]; simp)
            · rcases (hdirs2mem _).mp hd with hm | hm | hm
              · exact hwf.1.2 _ hm n (by simp)
              · exfalso
                have := congrArg List.length hm
                simp at this
              · have hnu : n = w.uuid := by
                  simpa using hm
                rw [hnu]
                exact hu
          obtain ⟨P', hP', huP', hinvf⟩ := moveLoop_inv hu hempty
            (entries.map (fun e => e.1)) [] fs2 fs3 hnamesclean (by simp)
            hbase hm4
          have hchild_in : ∀ n ∈ sys.fs.childNames ["workspace"],
              n ∈ P' ∧ n ≠ w.uuid := by
            intro n hn
            have hne : n ≠ w.uuid := fun he => huNot (he ▸ hn)
            have hn2 : n ∈ fs2.childNames ["workspace"] := by
              rcases mem_childNames.mp hn with hf | hd
              · exact mem_childNames.mpr (Or.inl (by rw [hfiles2, hfiles1]; exact hf))
              · exact mem_childNames.mpr (Or.inr ((hdirs2mem _).mpr (Or.inl hd)))
            refine ⟨(hP' n).mpr (Or.inr ⟨?_, hne⟩), hne⟩
            rw [hentries]
            exact hn2
          obtain ⟨hi1, hi2, hi3, hi4⟩ := hinvf
          refine ⟨rfl, ?_, ?_, ?_, ?_⟩
          · have hq := hi4 ["workspace"]
              (fun n' hn' => ⟨lead_two_single, lead_three_single⟩)
            show fs3.fileContent ["workspace"] = none
            rw [hq.1, hfc2, hfc1]
            exact hPnone
          · have hq := hi4 ["workspace"]
              (fun n' hn' => ⟨lead_two_single, lead_three_single⟩)
            exact hq.2.mpr ((hdirs2mem _).mpr (Or.inr (Or.inl rfl)))
          · have hq := hi4 ["workspace", w.uuid]
              (fun n' hn' =>
                ⟨fun hL => huP' ((lead_two_iff.mp hL).2 ▸ hn'), lead_three_two⟩)
            exact hq.2.mpr ((hdirs2mem _).mpr (Or.inr (Or.inr rfl)))
          · intro n hn
            obtain ⟨hnP', hne⟩ := hchild_in n hn
            refine ⟨hne, ?_, ?_, fun rest => hi3 n hnP' rest⟩
            · intro rest
              rw [hi1 n hnP' rest, hfc2, hfc1]
            · intro rest
              rw [hi2 n hnP' rest, hdirs2mem]
              constructor
              · rintro (hm | hm | hm)
                · exact hm
                · exfalso
                  have := congrArg List.length hm
                  simp at this
                · exfalso
                  have hnu : n = w.uuid ∧ rest = [] := by
                    simpa using hm
                  exact hne hnu.1
              · intro hm
                exact Or.inl hm

/-! ## Bridge lemmas from handler bodies to dispatch results -/

theorem wrapResult_ok_of_false {pre : String} {o : Except String String}
    (h : (wrapResult pre o).isError = false) : ∃ s, o = Except.ok s := by
  cases o with
  | ok s => exact ⟨s, rfl⟩
  | error e => simp [wrapResult] at h

theorem wrapResult_error_of_true {pre : String} {o : Except String String}
    (h : (wrapResult pre o).isError = true) : ∃ e, o = Except.error e := by
  cases o with
  | ok s => simp [wrapResult] at h
  | error e => exact ⟨e, rfl⟩

/-- Either `initialize_work`'s body fails and the identifier is untouched, or
it succeeds and the identifier becomes the generated folder name. -/
theorem initializeBody_split (w : World) (sys : Sys) :
    ((∃ e, (initializeBody w sys).1 = Except.error e) ∧
      (initializeBody w sys).2.st = sys.st) ∨
    ((initializeBody w sys).1 =
        Except.ok ("Initialized workspace folder: " ++ w.uuid) ∧
      (initializeBody w sys).2.st = some w.uuid) := by
  unfold initializeBody
  simp only []
  cases hm1 : sys.fs.mkdirPOp WORKSPACE_ROOT with
  | error e => exact Or.inl ⟨⟨e, rfl⟩, rfl⟩
  | ok fs1 =>
    dsimp only
    cases hm2 : fs1.mkdirOp (pathJoin WORKSPACE_ROOT w.uuid) with
    | error e => exact Or.inl ⟨⟨e, rfl⟩, rfl⟩
    | ok fs2 =>
      dsimp only
      cases hm3 : fs2.readdirOp WORKSPACE_ROOT with
      | error e => exact Or.inl ⟨⟨e, rfl⟩, rfl⟩
      | ok entries =>
        dsimp only
        cases hm4 : moveLoop fs2 w.uuid (pathJoin WORKSPACE_ROOT w.uuid)
            (entries.map (fun e => e.1)) with
        | error ef => exact Or.inl ⟨⟨ef.1, rfl⟩, rfl⟩
        | ok fs3 => exact Or.inr ⟨rfl, rfl⟩

/-- A file just written reads back with the written content. -/
theorem writeFileOp_read {fs fs' : FS} {p c : String}
    (h : fs.writeFileOp p c = Except.ok fs') :
    fs'.readFileOp p = Except.ok c := by
  unfold FS.writeFileOp at h
  by_cases h1 : ((splitPath p).isEmpty || fs.hasDir (splitPath p)) = true
  · rw [if_pos h1] at h
    exact absurd h (by simp)
  · rw [if_neg h1] at h
    by_cases h2 : (!(splitPath p).dropLast.isEmpty &&
        !fs.hasDir (splitPath p).dropLast) = true
    · rw [if_pos h2] at h
      exact absurd h (by simp)
    · rw [if_neg h2] at h
      injection h with h
      subst h
      have hnd : fs.hasDir (splitPath p) = false := by
        rcases Bool.or_eq_false_iff.mp (Bool.eq_false_iff.mpr h1) with ⟨_, hd⟩
        exact hd
      unfold FS.readFileOp
      have hnd' : FS.hasDir
          { fs with files := (splitPath p, c) ::
            fs.files.filter (fun e => !(e.1 == splitPath p)) }
          (splitPath p) = false := hnd
      rw [if_neg (by simp [hnd'])]
      have hfc : FS.fileContent
          { fs with files := (splitPath p, c) ::
            fs.files.filter (fun e => !(e.1 == splitPath p)) }
          (splitPath p) = some c := by
        unfold FS.fileContent
        rw [List.find?_cons_of_pos _ (by simp)]
        rfl
      rw [hfc]

/-- The dispatcher's result is the catch-wrapped body outcome, except the
missing-environment early return of `git_remote_set_url_from_env`. -/
theorem dispatch_result_wrap (w : World) (sys : Sys) (c : ToolCall) :
    (dispatch w sys c).1 = wrapResult (errLabel c) (bodyOutcome w sys c) ∨
    ((dispatch w sys c).1 = { content := [missingEnvMsg], isError := true } ∧
      bodyOutcome w sys c = Except.error missingEnvMsg) := by
  cases c with
  | git_remote_set_url_from_env =>
    cases hr : getEnvNonEmpty w "PROJECT_REPO" with
    | none =>
      right
      constructor <;> simp [dispatch, bodyOutcome, hr]
    | some repo =>
      cases ht : getEnvNonEmpty w "GITHUB_TOKEN" with
      | none =>
        right
        constructor <;> simp [dispatch, bodyOutcome, hr, ht]
      | some token =>
        left
        simp [dispatch, bodyOutcome, errLabel, hr, ht]
  | initialize_work => left; rfl
  | read_file name => left; rfl
  | write_file name content => left; rfl
  | delete_file name => left; rfl
  | list_dir => left; rfl
  | git_status => left; rfl
  | git_diff staged file => left; rfl
  | git_add files => left; rfl
  | git_commit message => left; rfl
  | git_log limit => left; rfl
  | git_branch_delete branch force => left; rfl
  | git_branch_create_and_push branch s0 => left; rfl

/-- The exact command line `git_commit` hands to the shell. -/
theorem gitCmdLine_commit (m : String) :
    gitCmdLine (gitCommitArgs m) =
      "git commit -m \"" ++ escapeQuotes m ++ "\"" := by
  apply str_ext
  simp only [gitCmdLine, gitCommitArgs, jsJoin, str_data_append, List.append_assoc]
  have h : ['g', 'i', 't', ' '] ++
      (['c', 'o', 'm', 'm', 'i', 't'] ++
        ([' '] ++ (['-', 'm'] ++ ([' '] ++ ['\"'])))) =
      ['g', 'i', 't', ' ', 'c', 'o', 'm', 'm', 'i', 't', ' ', '-', 'm', ' ', '\"'] := by
    decide
  rw [← h]
  simp only [List.append_assoc]

/-- Running `initialize_work` twice, both bodies succeeding, forces the two
generated identifiers apart: were they equal, the second `mkdir` of
`/workspace/<id>` would fail with `EEXIST`. -/
theorem init_twice_core {w1 w2 : World} {sys sys1 sys2 : Sys} {t1 t2 : String}
    (hwf : FS.wf sys.fs) (hu1 : cleanSeg w1.uuid) (hu2 : cleanSeg w2.uuid)
    (hrun1 : initializeBody w1 sys = (Except.ok t1, sys1))
    (hrun2 : initializeBody w2 sys1 = (Except.ok t2, sys2)) :
    w2.uuid ≠ w1.uuid ∧ sys2.st = some w2.uuid ∧ sys1.st = some w1.uuid := by
  obtain ⟨hst1, _, _, hfold_dir, _⟩ := initializeBody_ok_spec hwf hu1 hrun1
  have hst2 : sys2.st = some w2.uuid := by
    rcases initializeBody_split w2 sys1 with ⟨⟨e, he⟩, _⟩ | ⟨_, hst⟩
    · rw [hrun2] at he
      simp at he
    · rw [hrun2] at hst
      exact hst
  refine ⟨?_, hst2, hst1⟩
  intro heq
  unfold initializeBody at hrun2
  simp only [] at hrun2
  cases hm1 : sys1.fs.mkdirPOp WORKSPACE_ROOT with
  | error e =>
    rw [hm1] at hrun2
    simp at hrun2
  | ok fs1b =>
    rw [hm1] at hrun2
    dsimp only at hrun2
    obtain ⟨_, _, hdirs1b⟩ := mkdirPOp_root_ok hm1
    have hfsplit2 : splitPath (pathJoin WORKSPACE_ROOT w2.uuid) =
        ["workspace", w2.uuid] := by
      rw [pathJoin_root w2.uuid hu2]
      exact splitPath_clean (ws_f_clean hu2)
    have hd1 : sys1.fs.hasDir ["workspace", w1.uuid] = true :=
      hasDir_iff.mpr hfold_dir
    have hex : fs1b.existsAt ["workspace", w2.uuid] = true := by
      unfold FS.existsAt
      have hh : fs1b.hasDir ["workspace", w2.uuid] = true := by
        rw [hdirs1b, heq]
        simp [hd1]
      simp [hh]
    have hm2 : fs1b.mkdirOp (pathJoin WORKSPACE_ROOT w2.uuid) =
        Except.error ("EEXIST: file already exists, mkdir '" ++
          pathJoin WORKSPACE_ROOT w2.uuid ++ "'") := by
      unfold FS.mkdirOp
      simp only [hfsplit2, hex, if_true]
    rw [hm2] at hrun2
    simp at hrun2

/-! ## Claim theorems -/

/-- C1 (corrected): for an active workspace with a clean folder name and a
caller-supplied name that is not an absolute path, `getWorkspaceFilePath`
returns the normalized `root/name` exactly when it is a strict descendant of
the normalized root, and fails with `"Invalid file name."` otherwise —
including `..`-escapes and names resolving to the root itself.  The original
claim is corrected because an absolute caller-supplied name is not treated
as relative to the root (see `absolute_name_counterexample`). -/
theorem getWorkspaceFilePath_strict_containment (f s : String)
    (hf : cleanSeg f) (hs : jsStartsWith s "/" = false) :
    getWorkspaceFilePath (some f) s =
      (if strictlyInside (pathJoin WORKSPACE_ROOT f)
          (specJoinNorm (pathJoin WORKSPACE_ROOT f) s)
       then Except.ok (specJoinNorm (pathJoin WORKSPACE_ROOT f) s)
       else Except.error "Invalid file name.") := by
  obtain ⟨h1, h2, h3⟩ := resolver_check_iff f s hf hs
  rw [getWorkspaceFilePath_some, h1, h2]
  by_cases hin : strictlyInside (pathJoin WORKSPACE_ROOT f)
      (specJoinNorm (pathJoin WORKSPACE_ROOT f) s)
  · rw [if_neg (by simp [h3.mpr hin]), if_pos hin]
  · rw [if_pos (fun hT => hin (h3.mp hT)), if_neg hin]

/-- C1 witness: a plain relative name on workspace `"abc"`. -/
theorem strict_containment_witness :
    cleanSeg "abc" ∧ jsStartsWith "x" "/" = false ∧
    getWorkspaceFilePath (some "abc") "x" =
      (if strictlyInside (pathJoin WORKSPACE_ROOT "abc")
          (specJoinNorm (pathJoin WORKSPACE_ROOT "abc") "x")
       then Except.ok (specJoinNorm (pathJoin WORKSPACE_ROOT "abc") "x")
       else Except.error "Invalid file name.") :=
  ⟨by decide, by decide,
    getWorkspaceFilePath_strict_containment "abc" "x" (by decide) (by decide)⟩

/-- C1 counterexample: the name `"/etc/passwd"` — the spec-side reading
"compute `root/name`, normalize" produces a strict descendant of the root,
so the claimed property demands success, but the resolver lets the absolute
name win `path.resolve` and rejects it. -/
theorem absolute_name_counterexample :
    strictlyInside (pathJoin WORKSPACE_ROOT "abc")
      (specJoinNorm (pathJoin WORKSPACE_ROOT "abc") "/etc/passwd") ∧
    getWorkspaceFilePath (some "abc") "/etc/passwd" =
      Except.error "Invalid file name." := by
  exact ⟨by decide, rfl⟩

/-- C2 (corrected): before any successful `initialize_work`, every other
tool fails with the not-initialized message — except that
`git_remote_set_url_from_env` checks its environment variables first, so the
claim holds for it only when both variables are present (see
`remote_env_counterexample` for the excluded case). -/
theorem pre_init_not_initialized (w : World) (sys : Sys) (c : ToolCall)
    (hc : c ≠ ToolCall.initialize_work) (hst : sys.st = none)
    (henv : c = ToolCall.git_remote_set_url_from_env → envMissing w = false) :
    (dispatch w sys c).1.isError = true ∧
    (dispatch w sys c).1.content = [errLabel c ++ notInitializedMsg] := by
  obtain ⟨hE, hC⟩ := dispatch_pre_init w sys c hc hst
  refine ⟨hE, ?_⟩
  rcases hC with h | ⟨hcr, hm, _⟩
  · exact h
  · rw [henv hcr] at hm
    simp at hm

/-- C2 witness: `read_file` before initialization. -/
theorem pre_init_not_initialized_witness :
    ToolCall.read_file "x" ≠ ToolCall.initialize_work ∧
    ((dispatch exWorld exSys (ToolCall.read_file "x")).1.isError = true ∧
      (dispatch exWorld exSys (ToolCall.read_file "x")).1.content =
        [errLabel (ToolCall.read_file "x") ++ notInitializedMsg]) :=
  ⟨by decide,
    pre_init_not_initialized exWorld exSys (ToolCall.read_file "x")
      (by decide) rfl (fun h => absurd h (by decide))⟩

/-- C2 counterexample: `git_remote_set_url_from_env` invoked before
initialization in a world with no environment variables reports the missing
variables, not the not-initialized condition the claim demands. -/
theorem remote_env_counterexample :
    (dispatch exWorld exSys ToolCall.git_remote_set_url_from_env).1.isError
        = true ∧
    (dispatch exWorld exSys ToolCall.git_remote_set_url_from_env).1.content =
      [missingEnvMsg] ∧
    hasSub missingEnvMsg "not initialized" = false := by
  exact ⟨rfl, rfl, by decide⟩

/-- C3 (corrected): a failing `initialize_work` leaves the workspace
identifier unset, so every subsequent workspace-scoped call still fails
rather than using a half-initialized workspace — with the not-initialized
error, except `git_remote_set_url_from_env` under a missing environment
variable, which fails with the missing-variable message instead (see
`failed_init_remote_env_counterexample`); the frozen claim asserts the
not-initialized error for every tool and is false in that corner. -/
theorem failed_init_stays_uninitialized (w : World) (sys : Sys)
    (herr : (dispatch w sys ToolCall.initialize_work).1.isError = true)
    (hst : sys.st = none) :
    (dispatch w sys ToolCall.initialize_work).2.1.st = none ∧
    (∀ (w' : World) (c : ToolCall), c ≠ ToolCall.initialize_work →
      (dispatch w' (dispatch w sys ToolCall.initialize_work).2.1 c).1.isError
          = true ∧
      ((dispatch w' (dispatch w sys ToolCall.initialize_work).2.1 c).1.content
          = [errLabel c ++ notInitializedMsg] ∨
        (c = ToolCall.git_remote_set_url_from_env ∧ envMissing w' = true ∧
          (dispatch w' (dispatch w sys ToolCall.initialize_work).2.1 c).1.content
            = [missingEnvMsg]))) := by
  have hb : (wrapResult "Error initializing workspace: "
      (initializeBody w sys).1).isError = true := herr
  obtain ⟨e, he⟩ := wrapResult_error_of_true hb
  have hstay : (initializeBody w sys).2.st = sys.st := by
    rcases initializeBody_split w sys with ⟨_, h⟩ | ⟨hok, _⟩
    · exact h
    · rw [hok] at he
      simp at he
  have hnone : (dispatch w sys ToolCall.initialize_work).2.1.st = none := by
    show (initializeBody w sys).2.st = none
    rw [hstay, hst]
  exact ⟨hnone, fun w' c hc => dispatch_pre_init w' _ c hc hnone⟩

/-- C3 witness: initialization fails because a file occupies `/workspace`. -/
theorem failed_init_witness :
    (dispatch exWorld exSysBad ToolCall.initialize_work).1.isError = true ∧
    ((dispatch exWorld exSysBad ToolCall.initialize_work).2.1.st = none ∧
      (∀ (w' : World) (c : ToolCall), c ≠ ToolCall.initialize_work →
        (dispatch w' (dispatch exWorld exSysBad ToolCall.initialize_work).2.1
            c).1.isError = true ∧
        ((dispatch w' (dispatch exWorld exSysBad ToolCall.initialize_work).2.1
              c).1.content = [errLabel c ++ notInitializedMsg] ∨
          (c = ToolCall.git_remote_set_url_from_env ∧ envMissing w' = true ∧
            (dispatch w'
              (dispatch exWorld exSysBad ToolCall.initialize_work).2.1
                c).1.content = [missingEnvMsg])))) :=
  ⟨rfl, failed_init_stays_uninitialized exWorld exSysBad rfl rfl⟩

/-- C3 counterexample: after `initialize_work` fails (a file occupies
`/workspace`), `git_remote_set_url_from_env` invoked in a world with no
environment variables fails with the missing-variable message, not the
not-initialized error the frozen claim asserts for every subsequent
workspace-scoped operation. -/
theorem failed_init_remote_env_counterexample :
    (dispatch exWorld exSysBad ToolCall.initialize_work).1.isError = true ∧
    (dispatch exWorld (dispatch exWorld exSysBad ToolCall.initialize_work).2.1
        ToolCall.git_remote_set_url_from_env).1.isError = true ∧
    (dispatch exWorld (dispatch exWorld exSysBad ToolCall.initialize_work).2.1
        ToolCall.git_remote_set_url_from_env).1.content = [missingEnvMsg] ∧
    hasSub missingEnvMsg "not initialized" = false := by
  exact ⟨rfl, rfl, rfl, by decide⟩

theorem exSys_wf : FS.wf exSys.fs := by
  refine ⟨⟨?_, ?_⟩, ?_⟩
  · intro e he
    simp [exSys] at he
  · intro d hd
    simp [exSys] at hd
  · intro k hk
    simp [exSys] at hk

theorem exSysFile_wf : FS.wf exSysFile.fs := by
  refine ⟨⟨?_, ?_⟩, ?_⟩
  · intro e he
    simp [exSysFile] at he
    intro s hs
    rw [he] at hs
    simp at hs
    rcases hs with rfl | rfl <;> decide
  · intro d hd
    simp [exSysFile] at hd
    intro s hs
    rw [hd] at hs
    simp at hs
    rw [hs]
    decide
  · intro k hk i h0 hi
    simp [exSysFile] at hk
    rcases hk with hk | hk <;> subst hk
    · simp only [List.length_cons, List.length_nil] at hi
      have hI : i = 1 := by omega
      subst hI
      decide
    · simp only [List.length_cons, List.length_nil] at hi
      omega

/-- C4: two successful `initialize_work` runs generate distinct identifiers,
and the active identifier after the second run is the second one — the tool
is not idempotent and silently switches the active workspace. -/
theorem double_init_distinct (w1 w2 : World) (sys : Sys)
    (hwf : FS.wf sys.fs) (hu1 : cleanSeg w1.uuid) (hu2 : cleanSeg w2.uuid)
    (hok1 : (dispatch w1 sys ToolCall.initialize_work).1.isError = false)
    (hok2 : (dispatch w2 (dispatch w1 sys ToolCall.initialize_work).2.1
        ToolCall.initialize_work).1.isError = false) :
    w2.uuid ≠ w1.uuid ∧
    (dispatch w2 (dispatch w1 sys ToolCall.initialize_work).2.1
        ToolCall.initialize_work).2.1.st = some w2.uuid ∧
    (dispatch w1 sys ToolCall.initialize_work).2.1.st = some w1.uuid := by
  have hb1 : (wrapResult "Error initializing workspace: "
      (initializeBody w1 sys).1).isError = false := hok1
  obtain ⟨t1, ht1⟩ := wrapResult_ok_of_false hb1
  have hrun1 : initializeBody w1 sys =
      (Except.ok t1, (initializeBody w1 sys).2) := by
    rw [← ht1]
  have hb2 : (wrapResult "Error initializing workspace: "
      (initializeBody w2 (initializeBody w1 sys).2).1).isError = false := hok2
  obtain ⟨t2, ht2⟩ := wrapResult_ok_of_false hb2
  have hrun2 : initializeBody w2 (initializeBody w1 sys).2 =
      (Except.ok t2, (initializeBody w2 (initializeBody w1 sys).2).2) := by
    rw [← ht2]
  obtain ⟨hne, hst2, hst1⟩ := init_twice_core hwf hu1 hu2 hrun1 hrun2
  exact ⟨hne, hst2, hst1⟩

/-- C4 witness: two runs on the empty filesystem with identifiers `"u1"`,
`"u2"`. -/
theorem double_init_distinct_witness :
    FS.wf exSys.fs ∧ cleanSeg exWorld.uuid ∧ cleanSeg exWorld2.uuid ∧
    (exWorld2.uuid ≠ exWorld.uuid ∧
      (dispatch exWorld2 (dispatch exWorld exSys ToolCall.initialize_work).2.1
          ToolCall.initialize_work).2.1.st = some exWorld2.uuid ∧
      (dispatch exWorld exSys ToolCall.initialize_work).2.1.st =
        some exWorld.uuid) :=
  ⟨exSys_wf, by decide, by decide,
    double_init_distinct exWorld exWorld2 exSys exSys_wf (by decide)
      (by decide) (by decide) (by decide)⟩

/-- C5: a successful `initialize_work` creates `/workspace/<id>` and moves
every pre-existing immediate child of the root into it, preserving names,
recursively for directories; afterwards those entries are gone from directly
under the root. -/
theorem init_relocates (w : World) (sys : Sys)
    (hwf : FS.wf sys.fs) (hu : cleanSeg w.uuid)
    (hok : (dispatch w sys ToolCall.initialize_work).1.isError = false) :
    (dispatch w sys ToolCall.initialize_work).2.1.st = some w.uuid ∧
    ["workspace", w.uuid] ∈
      (dispatch w sys ToolCall.initialize_work).2.1.fs.dirs ∧
    (∀ n ∈ sys.fs.childNames ["workspace"],
      n ≠ w.uuid ∧
      (∀ rest, (dispatch w sys ToolCall.initialize_work).2.1.fs.fileContent
            ("workspace" :: w.uuid :: n :: rest) =
          sys.fs.fileContent ("workspace" :: n :: rest)) ∧
      (∀ rest, (("workspace" :: w.uuid :: n :: rest) ∈
            (dispatch w sys ToolCall.initialize_work).2.1.fs.dirs ↔
          ("workspace" :: n :: rest) ∈ sys.fs.dirs)) ∧
      (∀ rest, (dispatch w sys ToolCall.initialize_work).2.1.fs.fileContent
              ("workspace" :: n :: rest) = none ∧
            ("workspace" :: n :: rest) ∉
              (dispatch w sys ToolCall.initialize_work).2.1.fs.dirs)) := by
  have hb : (wrapResult "Error initializing workspace: "
      (initializeBody w sys).1).isError = false := hok
  obtain ⟨t, ht⟩ := wrapResult_ok_of_false hb
  have hrun : initializeBody w sys =
      (Except.ok t, (initializeBody w sys).2) := by
    rw [← ht]
  obtain ⟨h1, _, _, h4, h5⟩ := initializeBody_ok_spec hwf hu hrun
  exact ⟨h1, h4, h5⟩

/-- C5 witness: initialization over a root holding one loose file. -/
theorem init_relocates_witness :
    FS.wf exSysFile.fs ∧ cleanSeg exWorld.uuid ∧
    ((dispatch exWorld exSysFile ToolCall.initialize_work).2.1.st =
        some exWorld.uuid ∧
      ["workspace", exWorld.uuid] ∈
        (dispatch exWorld exSysFile ToolCall.initialize_work).2.1.fs.dirs ∧
      (∀ n ∈ exSysFile.fs.childNames ["workspace"],
        n ≠ exWorld.uuid ∧
        (∀ rest, (dispatch exWorld exSysFile
              ToolCall.initialize_work).2.1.fs.fileContent
              ("workspace" :: exWorld.uuid :: n :: rest) =
            exSysFile.fs.fileContent ("workspace" :: n :: rest)) ∧
        (∀ rest, (("workspace" :: exWorld.uuid :: n :: rest) ∈
              (dispatch exWorld exSysFile
                ToolCall.initialize_work).2.1.fs.dirs ↔
            ("workspace" :: n :: rest) ∈ exSysFile.fs.dirs)) ∧
        (∀ rest, (dispatch exWorld exSysFile
                ToolCall.initialize_work).2.1.fs.fileContent
                ("workspace" :: n :: rest) = none ∧
              ("workspace" :: n :: rest) ∉
                (dispatch exWorld exSysFile
                  ToolCall.initialize_work).2.1.fs.dirs))) :=
  ⟨exSysFile_wf, by decide,
    init_relocates exWorld exSysFile exSysFile_wf (by decide) (by decide)⟩

/-- C6: every handler failure is caught at the dispatch boundary and becomes
a Tool Result with `isError = true` and a single text item embedding the
underlying error message; a success yields `isError = false`; dispatch is a
total function, so no call propagates an exception. -/
theorem dispatch_catches_errors (w : World) (sys : Sys) (c : ToolCall) :
    (∃ t, (dispatch w sys c).1.content = [t]) ∧
    (∀ e, bodyOutcome w sys c = Except.error e →
      (dispatch w sys c).1.isError = true ∧
      ∃ q, (dispatch w sys c).1.content = [q ++ e]) ∧
    (∀ s, bodyOutcome w sys c = Except.ok s →
      (dispatch w sys c).1 = { content := [s], isError := false }) := by
  rcases dispatch_result_wrap w sys c with h | ⟨h1, h2⟩
  · rw [h]
    exact wrap_spec (errLabel c) (bodyOutcome w sys c)
  · rw [h1, h2]
    refine ⟨⟨missingEnvMsg, rfl⟩, ?_, ?_⟩
    · intro e he
      injection he with hme
      subst hme
      exact ⟨rfl, "", rfl⟩
    · intro s hs
      exact absurd hs (by simp)

/-- C6 witness: `read_file` before initialization raises and is wrapped. -/
theorem dispatch_catches_errors_witness :
    bodyOutcome exWorld exSys (ToolCall.read_file "x") =
      Except.error notInitializedMsg ∧
    ((dispatch exWorld exSys (ToolCall.read_file "x")).1.isError = true ∧
      ∃ q, (dispatch exWorld exSys (ToolCall.read_file "x")).1.content =
        [q ++ notInitializedMsg]) :=
  ⟨rfl, (dispatch_catches_errors exWorld exSys (ToolCall.read_file "x")).2.1
    notInitializedMsg rfl⟩

/-- C7: `git_commit` hands the shell the exact command
`git commit -m "<message with every double quote backslash-escaped>"`; in
particular the message `He said "hi"` is passed as `He said \"hi\"` inside
the quoted argument. -/
theorem git_commit_escapes (w : World) (sys : Sys) (f m : String)
    (hst : sys.st = some f) :
    (dispatch w sys (ToolCall.git_commit m)).2.2 =
      ["git commit -m \"" ++ escapeQuotes m ++ "\""] ∧
    escapeQuotes "He said \"hi\"" = "He said \\\"hi\\\"" := by
  constructor
  · show (gitSimpleBody w sys (gitCommitArgs m)).2 = _
    unfold gitSimpleBody runGit
    rw [hst]
    simp only [getWorkspaceDir]
    rw [gitCmdLine_commit]
  · decide

/-- C7 witness: the spec's own example message. -/
theorem git_commit_escapes_witness :
    exSysInit.st = some "u1" ∧
    ((dispatch exWorld exSysInit (ToolCall.git_commit "He said \"hi\"")).2.2 =
        ["git commit -m \"" ++ escapeQuotes "He said \"hi\"" ++ "\""] ∧
      escapeQuotes "He said \"hi\"" = "He said \\\"hi\\\"") :=
  ⟨rfl, git_commit_escapes exWorld exSysInit "u1" "He said \"hi\"" rfl⟩

/-- C8 (corrected): `git_branch_create` (the `repoPath` variant) runs
`git branch <b> [startPoint]`; but `git_branch_create_and_push` (the
isolated-workspace variant) never runs `git branch` — it runs
`git checkout -b <b> [startPoint]` and, if that succeeds, `git push -u
origin <b>` (see `create_and_push_counterexample`). -/
theorem branch_create_commands (ws : ServerJs.World) (b : String)
    (sp rp : Option String) (wi : World) (sys : Sys) (f : String)
    (hst : sys.st = some f) :
    (ServerJs.gitBranchCreate ws b sp rp).2 =
      [gitCmdLine (["branch", b] ++ optArg sp)] ∧
    ((dispatch wi sys (ToolCall.git_branch_create_and_push b sp)).2.2 =
        [gitCmdLine (["checkout", "-b", b] ++ optArg sp),
          gitCmdLine ["push", "-u", "origin", b]] ∨
      (dispatch wi sys (ToolCall.git_branch_create_and_push b sp)).2.2 =
        [gitCmdLine (["checkout", "-b", b] ++ optArg sp)]) := by
  constructor
  · unfold ServerJs.gitBranchCreate ServerJs.runGit
    cases h : ws.exec (gitCmdLine (["branch", b] ++ optArg sp))
        (ServerJs.resolveRepoPath ws rp) <;> simp [h]
  · show (branchCreateAndPushBody wi sys b sp).2 = _ ∨
      (branchCreateAndPushBody wi sys b sp).2 = _
    unfold branchCreateAndPushBody runGit
    rw [hst]
    simp only [getWorkspaceDir]
    cases h1 : wi.exec (gitCmdLine (["checkout", "-b", b] ++ optArg sp))
        (pathJoin WORKSPACE_ROOT f) with
    | error e =>
      right
      simp [h1]
    | ok s1 =>
      cases h2 : wi.exec (gitCmdLine ["push", "-u", "origin", b])
          (pathJoin WORKSPACE_ROOT f) with
      | error e =>
        left
        simp [h1, h2]
      | ok s2 =>
        left
        simp [h1, h2]

/-- C8 witness: branch `"feature"` with no start point under an always-ok
exec oracle. -/
theorem branch_create_commands_witness :
    exSysInit.st = some "u1" ∧
    ((ServerJs.gitBranchCreate exWorldS "feature" none none).2 =
        [gitCmdLine (["branch", "feature"] ++ optArg none)] ∧
      ((dispatch exWorld exSysInit
            (ToolCall.git_branch_create_and_push "feature" none)).2.2 =
          [gitCmdLine (["checkout", "-b", "feature"] ++ optArg none),
            gitCmdLine ["push", "-u", "origin", "feature"]] ∨
        (dispatch exWorld exSysInit
            (ToolCall.git_branch_create_and_push "feature" none)).2.2 =
          [gitCmdLine (["checkout", "-b", "feature"] ++ optArg none)])) :=
  ⟨rfl, branch_create_commands exWorldS "feature" none none exWorld
    exSysInit "u1" rfl⟩

/-- C8 counterexample: the trace of `git_branch_create_and_push` holds a
`checkout -b` and a `push`, and no `git branch` command, contradicting the
claimed `git branch <branch> [startPoint]` first step. -/
theorem create_and_push_counterexample :
    (dispatch exWorld exSysInit
        (ToolCall.git_branch_create_and_push "feature" none)).2.2 =
      ["git checkout -b feature", "git push -u origin feature"] ∧
    "git branch feature" ∉
      (dispatch exWorld exSysInit
        (ToolCall.git_branch_create_and_push "feature" none)).2.2 := by
  exact ⟨by decide, by decide⟩

/-- C9: a successful `write_file(n, c)` followed by `read_file(n)` returns a
Tool Result whose single text item is exactly `c`. -/
theorem write_read_roundtrip (w w' : World) (sys : Sys) (n c : String)
    (hok : (dispatch w sys (ToolCall.write_file n c)).1.isError = false) :
    (dispatch w' (dispatch w sys (ToolCall.write_file n c)).2.1
        (ToolCall.read_file n)).1 =
      { content := [c], isError := false } := by
  have hb : (wrapResult "Error writing file: "
      (writeFileBody sys n c).1).isError = false := hok
  obtain ⟨s, hs⟩ := wrapResult_ok_of_false hb
  unfold writeFileBody at hs
  cases hp : getWorkspaceFilePath sys.st n with
  | error e =>
    rw [hp] at hs
    simp at hs
  | ok p =>
    rw [hp] at hs
    dsimp only at hs
    cases hw : sys.fs.writeFileOp p c with
    | error e =>
      rw [hw] at hs
      simp at hs
    | ok fs' =>
      have hsys2 : (dispatch w sys (ToolCall.write_file n c)).2.1 =
          { sys with fs := fs' } := by
        show (writeFileBody sys n c).2 = _
        unfold writeFileBody
        rw [hp]
        dsimp only
        rw [hw]
      rw [hsys2]
      have hrb : readFileBody { sys with fs := fs' } n = Except.ok c := by
        unfold readFileBody
        have hstq : ({ sys with fs := fs' } : Sys).st = sys.st := rfl
        rw [hstq, hp]
        exact writeFileOp_read hw
      show wrapResult "Error reading file: "
        (readFileBody { sys with fs := fs' } n) = _
      rw [hrb]
      rfl

/-- C9 witness: write then read `"x"` in an activated workspace. -/
theorem write_read_roundtrip_witness :
    (dispatch exWorld exSysInit
      (ToolCall.write_file "x" "hello")).1.isError = false ∧
    (dispatch exWorld
        (dispatch exWorld exSysInit (ToolCall.write_file "x" "hello")).2.1
        (ToolCall.read_file "x")).1 =
      { content := ["hello"], isError := false } :=
  ⟨by decide,
    write_read_roundtrip exWorld exWorld exSysInit "x" "hello" (by decide)⟩

/-- C10: the active workspace identifier is mutated only by a successful
`initialize_work`: every other tool, on success and on error, and every
failing `initialize_work`, leaves it unchanged. -/
theorem active_id_frame (w : World) (sys : Sys) (c : ToolCall)
    (h : c ≠ ToolCall.initialize_work ∨
      (dispatch w sys c).1.isError = true) :
    (dispatch w sys c).2.1.st = sys.st := by
  cases c with
  | initialize_work =>
    rcases h with h | h
    · exact absurd rfl h
    · rcases initializeBody_split w sys with ⟨_, hstay⟩ | ⟨hok, _⟩
      · exact hstay
      · exfalso
        have h' : (wrapResult "Error initializing workspace: "
            (initializeBody w sys).1).isError = true := h
        rw [hok] at h'
        simp [wrapResult] at h'
  | read_file name => rfl
  | write_file name content => exact writeFileBody_st sys name content
  | delete_file name => exact deleteFileBody_st sys name
  | list_dir => rfl
  | git_status => rfl
  | git_diff staged file => rfl
  | git_add files => rfl
  | git_commit message => rfl
  | git_log limit => rfl
  | git_remote_set_url_from_env =>
    cases hr : getEnvNonEmpty w "PROJECT_REPO" with
    | none => simp [dispatch, hr]
    | some repo =>
      cases ht : getEnvNonEmpty w "GITHUB_TOKEN" with
      | none => simp [dispatch, hr, ht]
      | some token => simp [dispatch, hr, ht]
  | git_branch_delete branch force => rfl
  | git_branch_create_and_push branch s0 => rfl

/-- C10 witness: `list_dir` leaves the identifier unchanged. -/
theorem active_id_frame_witness :
    ToolCall.list_dir ≠ ToolCall.initialize_work ∧
    (dispatch exWorld exSysInit ToolCall.list_dir).2.1.st = exSysInit.st :=
  ⟨by decide,
    active_id_frame exWorld exSysInit ToolCall.list_dir (Or.inl (by decide))⟩
